import Mathlib

/-!
Verification development for the Godot project report generator
(src/report.py).  The Python source is shallowly embedded: pure string
manipulation is modelled on lists of characters, filesystem paths as lists
of components, dictionaries as insertion-ordered association lists, and
Python sets as duplicate-free lists where only membership matters.  The
regular expressions of the source are embedded as executable scanning
functions that implement the exact leftmost-match semantics of the Python
re module on the patterns in question.
-/

namespace GodotReport

/-- Whitespace characters recognised by the Python str.strip operation and
by whitespace classes in the regular expressions of report.py (ASCII and
latin-1 model of the Python whitespace set). -/
def pyIsSpace (c : Char) : Bool :=
  c == ' ' || c == '\t' || c == '\n' || c == '\r' || c == '\x0b' ||
  c == '\x0c' || c == '\x1c' || c == '\x1d' || c == '\x1e' || c == '\x1f' ||
  c == '\x85' || c == '\xa0'

/-- Drop matching characters from the right end of a character list. -/
def dropEndWhile (p : Char → Bool) (l : List Char) : List Char :=
  (l.reverse.dropWhile p).reverse

/-- Drop matching characters from both ends, as the Python str.strip family
does. -/
def stripEnds (p : Char → Bool) (l : List Char) : List Char :=
  dropEndWhile p (l.dropWhile p)

/-- Python str.strip with no argument: strip whitespace from both ends. -/
def pyStripWs (l : List Char) : List Char :=
  stripEnds pyIsSpace l

/-- The chained strip of normalize_res_like_path (report.py line 90):
raw.strip followed by strip of double quotes followed by strip of single
quotes, each acting on both ends only. -/
def pyStrip3 (l : List Char) : List Char :=
  stripEnds (fun c => c == '\'') (stripEnds (fun c => c == '"') (pyStripWs l))

/-- Boolean prefix test on character lists (Python str.startswith). -/
def listStartsWith (pre l : List Char) : Bool :=
  pre.isPrefixOf l

/-- Model of an absolute filesystem path as its list of components below
the filesystem root. -/
structure PPath where
  parts : List String
deriving DecidableEq, Repr

/-- Split a character list at every occurrence of the separator. -/
def splitOnChar (sep : Char) : List Char → List (List Char)
  | [] => [[]]
  | c :: rest =>
    let r := splitOnChar sep rest
    if c == sep then [] :: r
    else
      match r with
      | [] => [[c]]
      | h :: t => (c :: h) :: t

/-- Components of a relative path string: split on the separator, dropping
empty and single-dot components as pathlib does at construction. -/
def pathSegments (s : List Char) : List String :=
  ((splitOnChar '/' s).map (fun l => (⟨l⟩ : String))).filter
    (fun t => t != "" && t != ".")

/-- Model of the pathlib join base / s: an absolute right operand replaces
the base, otherwise the segments are appended. -/
def joinRel (base : PPath) (s : List Char) : PPath :=
  match s with
  | '/' :: _ => ⟨pathSegments s⟩
  | _ => ⟨base.parts ++ pathSegments s⟩

/-- One pass of pathlib Path.resolve on a component list: parent-dir
components pop the accumulator (staying at the root when it is empty) and
empty or single-dot components are dropped.  Symbolic links are not
modelled. -/
def resolveParts (acc : List String) : List String → List String
  | [] => acc
  | p :: rest =>
    if p == ".." then resolveParts acc.dropLast rest
    else if p == "." || p == "" then resolveParts acc rest
    else resolveParts (acc ++ [p]) rest

/-- Model of Path.resolve. -/
def resolvePath (p : PPath) : PPath :=
  ⟨resolveParts [] p.parts⟩

/-- Join path components with the separator (the posix rendering used by
Path.as_posix on a relative path). -/
def joinSep (sep : List Char) : List (List Char) → List Char
  | [] => []
  | [x] => x
  | x :: xs => x ++ sep ++ joinSep sep xs

/-- Embedding of to_res_path (report.py lines 84-86).  Path.relative_to
raises when p is not below project_root; the exception is modelled as
none. -/
def to_res_path (project_root : PPath) (p : PPath) : Option String :=
  if p.parts.take project_root.parts.length = project_root.parts then
    let rel := p.parts.drop project_root.parts.length
    if rel = [] then some "res://"
    else
      let r := joinSep ['/'] (rel.map String.data)
      some ⟨"res://".data ++ (if r.head? = some '/' then r else '/' :: r)⟩
  else none

/-- Embedding of normalize_res_like_path (report.py lines 89-102). -/
def normalize_res_like_path (raw : String) (base_dir project_root : PPath) :
    String :=
  let s := pyStrip3 raw.data
  if s = [] then ⟨s⟩
  else if listStartsWith "uid://".data s then ⟨s⟩
  else if listStartsWith "res://".data s then
    let tail := (s.drop 6).dropWhile (fun c => c == '/')
    if tail = [] then "res://" else ⟨"res:///".data ++ tail⟩
  else
    let abs_path := resolvePath (joinRel base_dir s)
    match to_res_path project_root abs_path with
    | some out => out
    | none => ⟨s⟩

/-- Well-formedness of one modelled path component: nonempty, not a dot
component, and free of the separator.  This is the invariant of the
components of a resolved pathlib path. -/
def okComponent (t : String) : Bool :=
  t != "" && t != "." && t != ".." && !(t.data.contains '/')

/-- Well-formedness of a modelled path. -/
def okPath (p : PPath) : Bool :=
  p.parts.all okComponent

/-- One reverse-index insertion, rev.setdefault(t, set()).add(src) of
report.py line 831, on the association-list model of a dict of sets: a
present key has src added to its set (sets never hold duplicates), an
absent key is appended with the singleton set. -/
def revInsert (rev : List (String × List String)) (t src : String) :
    List (String × List String) :=
  if rev.any (fun e => e.1 == t) then
    rev.map (fun e =>
      if e.1 == t then (e.1, if src ∈ e.2 then e.2 else e.2 ++ [src]) else e)
  else rev ++ [(t, [src])]

/-- Embedding of build_reverse_index (report.py lines 827-833). -/
def build_reverse_index (edges : List (String × List String)) :
    List (String × List String) :=
  edges.foldl (fun rev p => p.2.foldl (fun r t => revInsert r t p.1) rev) []

/-- Value of a dict-of-sets entry, the empty set for a missing key. -/
def lookupSet (m : List (String × List String)) (k : String) : List String :=
  match m.find? (fun e => e.1 == k) with
  | some e => e.2
  | none => []

/-- Key membership in the association-list dict model. -/
def isKey (m : List (String × List String)) (k : String) : Bool :=
  m.any (fun e => e.1 == k)

/-- ASCII model of str.casefold, the sort key of report.py line 944. -/
def pyCasefold (s : String) : String :=
  ⟨s.data.map Char.toLower⟩

/-- The comparison realised by sorted(..., key=str.casefold). -/
def casefoldLe (a b : String) : Bool :=
  decide (pyCasefold a ≤ pyCasefold b)

/-- Stable insertion of one element into a sorted list. -/
def sortInsert {α : Type} (le : α → α → Bool) (x : α) : List α → List α
  | [] => [x]
  | y :: ys => if le x y then x :: y :: ys else y :: sortInsert le x ys

/-- Stable insertion sort, the model of the Python sorted builtin. -/
def insertionSort {α : Type} (le : α → α → Bool) : List α → List α
  | [] => []
  | x :: xs => sortInsert le x (insertionSort le xs)

/-- Embedding of the unused-resource computation of generate_report
(report.py lines 930-945): used_by = build_reverse_index(edges), used_set =
keys of used_by unioned with the root targets, and the unused list is the
on-disk inventory minus used_set minus the exclusion set, sorted with the
casefold key. -/
def compute_unused (edges : List (String × List String)) (roots : List String)
    (inventory : List String) (excl : List String) : List String :=
  let used_by := build_reverse_index edges
  insertionSort casefoldLe
    (inventory.filter (fun rsc =>
      !(isKey used_by rsc || roots.contains rsc) && !(excl.contains rsc)))

/-- Scanner state of _brace_delta_outside_quotes: running delta, the
optional opening quote of the current quoted span, and the
escape-pending flag. -/
structure BraceState where
  delta : Int
  in_q : Option Char
  esc : Bool
deriving DecidableEq, Repr

/-- One character step of _brace_delta_outside_quotes (report.py lines
172-191): a pending escape consumes the character, a backslash arms the
escape, inside a quoted span only the matching quote is interpreted, and
outside quotes a quote opens a span while braces move the delta. -/
def braceStep (st : BraceState) (ch : Char) : BraceState :=
  if st.esc then { st with esc := false }
  else if ch == '\\' then { st with esc := true }
  else
    match st.in_q with
    | some q => if ch == q then { st with in_q := none } else st
    | none =>
      if ch == '"' || ch == '\'' then { st with in_q := some ch }
      else if ch == '{' then { st with delta := st.delta + 1 }
      else if ch == '}' then { st with delta := st.delta - 1 }
      else st

/-- Embedding of _brace_delta_outside_quotes (report.py lines 169-191). -/
def _brace_delta_outside_quotes (s : String) : Int :=
  (s.data.foldl braceStep ⟨0, none, false⟩).delta

/-- ASCII model of the regex word class of the patterns in report.py. -/
def isWordChar (c : Char) : Bool :=
  c.isAlphanum || c == '_'

/-- Line-break characters of str.splitlines other than the carriage
return, which is handled separately to pair with a following newline. -/
def isLineBreakChar (c : Char) : Bool :=
  c == '\n' || c == '\x0b' || c == '\x0c' || c == '\x1c' || c == '\x1d' ||
  c == '\x1e' || c == '\x85' || c == '\u2028' || c == '\u2029'

/-- Model of str.splitlines: split on line breaks, a carriage return and a
following newline forming a single break, with no trailing empty line. -/
def pySplitlinesAux : List Char → List Char → List (List Char)
  | [], acc => if acc.isEmpty then [] else [acc.reverse]
  | '\r' :: '\n' :: r2, acc => acc.reverse :: pySplitlinesAux r2 []
  | c :: rest, acc =>
    if c == '\r' then acc.reverse :: pySplitlinesAux rest []
    else if isLineBreakChar c then acc.reverse :: pySplitlinesAux rest []
    else pySplitlinesAux rest (c :: acc)

def pySplitlines (l : List Char) : List (List Char) :=
  pySplitlinesAux l []

/-- Python str.rstrip with no argument. -/
def pyRStrip (l : List Char) : List Char :=
  dropEndWhile pyIsSpace l

/-- Fuel-driven scanning loop realising re.finditer: at every position one
anchored match attempt runs; a successful attempt emits its capture and
scanning resumes after the matched span, a failed one advances a single
character.  The fuel is instantiated with the input length, which bounds
the iteration count because every attempt's continuation is a strict
suffix of its input. -/
def scanAllF {α : Type} (step : List Char → Option (α × List Char)) :
    Nat → List Char → List α
  | 0, _ => []
  | _, [] => []
  | fuel + 1, c :: rest =>
    match step (c :: rest) with
    | some pa => pa.1 :: scanAllF step fuel pa.2
    | none => scanAllF step fuel rest

def scanAll {α : Type} (step : List Char → Option (α × List Char))
    (l : List Char) : List α :=
  scanAllF step l.length l

/-- One anchored attempt of the attribute pattern KV_RE of report.py line
114 (a word key, optional spaces, an equals sign, optional spaces, then a
double-quoted span or a nonspace run): the captured key and raw value plus
the rest of the input.  The Python backtracking collapses to maximal munch
because the word, space, and value classes are disjoint at every
boundary; a quoted opener without a closing quote falls back to the
nonspace alternative exactly as the engine does. -/
def kvTry (l : List Char) : Option ((String × String) × List Char) :=
  let k := l.takeWhile isWordChar
  if k.isEmpty then none
  else
    match (l.dropWhile isWordChar).dropWhile pyIsSpace with
    | '=' :: r2 =>
      let r3 := r2.dropWhile pyIsSpace
      match r3 with
      | '"' :: r4 =>
        match r4.dropWhile (fun c => !(c == '"')) with
        | '"' :: r5 =>
          some ((⟨k⟩, ⟨'"' :: (r4.takeWhile (fun c => !(c == '"')) ++ ['"'])⟩), r5)
        | _ =>
          some ((⟨k⟩, ⟨r3.takeWhile (fun c => !(pyIsSpace c))⟩),
            r3.dropWhile (fun c => !(pyIsSpace c)))
      | _ =>
        let w := r3.takeWhile (fun c => !(pyIsSpace c))
        if w.isEmpty then none
        else some ((⟨k⟩, ⟨w⟩), r3.dropWhile (fun c => !(pyIsSpace c)))
    | _ => none

/-- The value dequoting of parse_header_kv (report.py lines 122-123):
strip one double quote from each end when both are present. -/
def pyDequote (v : List Char) : List Char :=
  match v with
  | '"' :: rest =>
    if rest.getLast? = some '"' then rest.dropLast
    else if rest.isEmpty then [] else v
  | _ => v

/-- Insertion-ordered dict update (Python dict assignment): a present key
keeps its position and takes the new value, an absent key is appended. -/
def dictUpsert (m : List (String × String)) (k v : String) :
    List (String × String) :=
  if m.any (fun e => e.1 == k) then
    m.map (fun e => if e.1 == k then (k, v) else e)
  else m ++ [(k, v)]

/-- Python dict.get with no default. -/
def dictGet? (m : List (String × String)) (k : String) : Option String :=
  (m.find? (fun e => e.1 == k)).map (fun e => e.2)

/-- Python dict.get with a default. -/
def dictGetD (m : List (String × String)) (k d : String) : String :=
  (dictGet? m k).getD d

/-- Embedding of parse_header_kv (report.py lines 117-125). -/
def parse_header_kv (header : String) : List (String × String) :=
  (scanAll kvTry header.data).foldl
    (fun out kv => dictUpsert out kv.1 ⟨pyDequote kv.2.data⟩) []

/-- Embedding of HEADING_RE (report.py line 113) under re.match: an
opening bracket, a nonempty word tag, maximal whitespace, then everything
up to the last closing bracket whose suffix is pure whitespace. -/
def headingMatch (l : List Char) : Option (String × String) :=
  match l with
  | '[' :: rest =>
    let tag := rest.takeWhile isWordChar
    if tag.isEmpty then none
    else
      match ((rest.dropWhile isWordChar).dropWhile pyIsSpace).reverse.dropWhile
          pyIsSpace with
      | ']' :: body => some (⟨tag⟩, ⟨body.reverse⟩)
      | _ => none
  | _ => none

/-- One anchored attempt of the quoted reference patterns RES_STR_RE and
UID_STR_RE (report.py lines 108-109): an opening quote of either style,
the stem literal, one or more characters that are no quote of either
style, then the matching closing quote; yields the group-2 capture (stem
plus body). -/
def quotedRefTry (stem : List Char) (l : List Char) :
    Option (List Char × List Char) :=
  match l with
  | q :: rest =>
    if q == '"' || q == '\'' then
      if stem.isPrefixOf rest then
        let body := (rest.drop stem.length).takeWhile
          (fun c => !(c == '"') && !(c == '\''))
        match (rest.drop stem.length).dropWhile
            (fun c => !(c == '"') && !(c == '\'')) with
        | q2 :: r2 =>
          if body.isEmpty then none
          else if q2 == q then some (stem ++ body, r2) else none
        | [] => none
      else none
    else none
  | [] => none

def resStrFindall (l : List Char) : List (List Char) :=
  scanAll (quotedRefTry "res://".data) l

def uidStrFindall (l : List Char) : List (List Char) :=
  scanAll (quotedRefTry "uid://".data) l

/-- One anchored attempt of EXTRESOURCE_ID_RE (report.py line 111),
including the whitespace backtracking the Python engine performs after
the opening parenthesis when both alternatives fail at the maximal run:
yields the raw captured id (group 1 or group 2). -/
def extResTry (l : List Char) : Option (List Char × List Char) :=
  if "ExtResource(".data.isPrefixOf l then
    let r0 := l.drop 12
    let sp := r0.takeWhile pyIsSpace
    let r1 := r0.dropWhile pyIsSpace
    let alt1 : Option (List Char × List Char) :=
      match r1 with
      | '"' :: r2 =>
        let body := r2.takeWhile (fun c => !(c == '"'))
        match r2.dropWhile (fun c => !(c == '"')) with
        | '"' :: r3 =>
          if body.isEmpty then none
          else
            match r3.dropWhile pyIsSpace with
            | ')' :: r4 => some (body, r4)
            | _ => none
        | _ => none
      | _ => none
    match alt1 with
    | some pa => some pa
    | none =>
      let body2 := r1.takeWhile (fun c => !(c == ')'))
      match r1.dropWhile (fun c => !(c == ')')) with
      | ')' :: r4 =>
        if body2.isEmpty then
          if sp.isEmpty then none else some ([' '], r4)
        else some (body2, r4)
      | _ => none
  else none

def extResFindall (l : List Char) : List (List Char) :=
  scanAll extResTry l

/-- First match of a scanning pattern, the re.search behaviour. -/
def extResSearch (l : List Char) : Option (List Char) :=
  (extResFindall l).head?

def resStrSearch (l : List Char) : Option (List Char) :=
  (resStrFindall l).head?

def uidStrSearch (l : List Char) : Option (List Char) :=
  (uidStrFindall l).head?

/-- Python substring membership (the in operator on str). -/
def containsSub (pat l : List Char) : Bool :=
  match l with
  | [] => pat.isEmpty
  | _ :: rest => pat.isPrefixOf l || containsSub pat rest

/-- Insertion-ordered model of Python set.add. -/
def setAdd (l : List String) (x : String) : List String :=
  if x ∈ l then l else l ++ [x]

/-- Insertion-ordered model of a Python set union (add every element). -/
def setUnion (l : List String) (xs : List String) : List String :=
  xs.foldl setAdd l

/-- Embedding of extract_res_uid_strings (report.py lines 128-134). -/
def extract_res_uid_strings (text : String) (base_dir project_root : PPath) :
    List String :=
  let refs := (resStrFindall text.data).foldl
    (fun refs p =>
      setAdd refs (normalize_res_like_path ⟨p⟩ base_dir project_root)) []
  (uidStrFindall text.data).foldl
    (fun refs p => setAdd refs ⟨pyStripWs p⟩) refs

/-- Embedding of parse_script_value (report.py lines 137-163). -/
def parse_script_value (raw : String) (ext_id_to_path : List (String × String))
    (base_dir project_root : PPath) : Option String :=
  let v := pyStripWs raw.data
  if v = "null".data then none
  else
    match extResSearch v with
    | some rid_raw =>
      let rid : String := ⟨pyStripWs rid_raw⟩
      if rid = "" then none
      else
        match dictGet? ext_id_to_path rid with
        | some p => some (normalize_res_like_path p base_dir project_root)
        | none => some ("ExtResource(\"" ++ rid ++ "\")")
    | none =>
      match resStrSearch v with
      | some p => some (normalize_res_like_path ⟨p⟩ base_dir project_root)
      | none =>
        match uidStrSearch v with
        | some p => some ⟨p⟩
        | none =>
          if containsSub "SubResource".data v then some ⟨v⟩ else none

/-- A single-quote character as a string, for warning texts. -/
def sq : String := ⟨['\'']⟩

/-- Flat record of one scene node, the fields of SceneNode (report.py
lines 355-363) without the derived children list. -/
structure NodeRec where
  name : String
  type_name : String
  parent_full : Option String
  order : Nat
  script_path : Option String
  instance_path : Option String
deriving DecidableEq, Repr

/-- The scene-tree node the parser returns: SceneNode of report.py lines
355-363 with its children materialised. -/
inductive SceneNode where
  | mk (name type_name : String) (parent_full : Option String) (order : Nat)
      (script_path instance_path : Option String)
      (children : List SceneNode)

def SceneNode.name : SceneNode → String
  | .mk n _ _ _ _ _ _ => n

def SceneNode.type_name : SceneNode → String
  | .mk _ t _ _ _ _ _ => t

def SceneNode.order : SceneNode → Nat
  | .mk _ _ _ o _ _ _ => o

def SceneNode.children : SceneNode → List SceneNode
  | .mk _ _ _ _ _ _ c => c

/-- Embedding of SceneConnection (report.py lines 382-387). -/
structure SceneConnection where
  signal : String
  from_path : String
  to_path : String
  method : String
deriving DecidableEq, Repr

/-- Embedding of SceneParseResult (report.py lines 390-396); the scene
path itself is carried by the caller. -/
structure SceneParseResult where
  root : Option SceneNode
  connections : List SceneConnection
  references : List String
  warnings : List String

/-- State of the line loop of parse_tscn (report.py lines 404-463). -/
structure TokState where
  ext : List (String × String)
  nodes : List (List (String × String) × List (String × String) × Nat)
  conns : List SceneConnection
  curHdr : Option (List (String × String))
  curProps : Option (List (String × String))
  order : Nat
  warns : List String

def initTokState : TokState := ⟨[], [], [], none, none, 0, []⟩

/-- flush_node of report.py lines 412-417. -/
def tscnFlush (st : TokState) : TokState :=
  match st.curHdr, st.curProps with
  | some h, some p =>
    { st with
      nodes := st.nodes ++ [(h, p, st.order)]
      order := st.order + 1
      curHdr := none
      curProps := none }
  | _, _ => { st with curHdr := none, curProps := none }

/-- Split of a property line at its first equals sign with both parts
stripped (report.py lines 459-461). -/
def propSplit (l : List Char) : String × String :=
  (⟨pyStripWs (l.takeWhile (fun c => !(c == '=')))⟩,
   ⟨pyStripWs ((l.dropWhile (fun c => !(c == '='))).tail)⟩)

/-- One line of the parse_tscn loop (report.py lines 419-461). -/
def tscnLine (st : TokState) (raw : List Char) : TokState :=
  let line := pyStripWs raw
  if line.isEmpty || listStartsWith ";".data line then st
  else
    match headingMatch line with
    | some kh =>
      let kv := parse_header_kv kh.2
      if kh.1 = "ext_resource" then
        let st := tscnFlush st
        match dictGet? kv "id", dictGet? kv "path" with
        | some rid, some p =>
          if rid = "" ∨ p = "" then st
          else { st with ext := dictUpsert st.ext rid p }
        | _, _ => st
      else if kh.1 = "node" then
        let st := tscnFlush st
        { st with curHdr := some kv, curProps := some [] }
      else if kh.1 = "connection" then
        let st := tscnFlush st
        let sig := dictGetD kv "signal" ""
        let frm := dictGetD kv "from" ""
        let tov := dictGetD kv "to" ""
        let method := dictGetD kv "method" ""
        if sig ≠ "" ∧ frm ≠ "" ∧ tov ≠ "" ∧ method ≠ "" then
          { st with conns := st.conns ++ [⟨sig, frm, tov, method⟩] }
        else
          { st with warns := st.warns ++
              ["Malformed connection heading: " ++ ⟨line⟩] }
      else tscnFlush st
    | none =>
      if st.curProps.isSome && line.contains '=' then
        match st.curProps with
        | some props =>
          let kv := propSplit line
          { st with curProps := some (dictUpsert props kv.1 kv.2) }
        | none => st
      else st

def tscnLoop (lines : List (List Char)) (st : TokState) : TokState :=
  lines.foldl tscnLine st

/-- Record upsert of the path_to_node dict (report.py lines 504-520): a
present full path has every field of its record overwritten in place, an
absent one is appended. -/
def nodeUpsert (tbl : List (String × NodeRec)) (k : String) (n : NodeRec) :
    List (String × NodeRec) :=
  if tbl.any (fun e => e.1 == k) then
    tbl.map (fun e => if e.1 == k then (k, n) else e)
  else tbl ++ [(k, n)]

/-- One iteration of the node-table loop of parse_tscn (report.py lines
480-520). -/
def stage2step (rootName : String) (base_dir project_root : PPath)
    (ext : List (String × String)) (tbl : List (String × NodeRec))
    (t : List (String × String) × List (String × String) × Nat) :
    List (String × NodeRec) :=
  let hdr := t.1
  let props := t.2.1
  let idx := t.2.2
  let name := dictGetD hdr "name" ("<unnamed_" ++ toString idx ++ ">")
  let parent_raw := dictGet? hdr "parent"
  let instance_raw := dictGet? hdr "instance"
  let instTruthy : Bool := !(instance_raw.getD "" == "")
  let instance_path := if instTruthy
    then parse_script_value (instance_raw.getD "") ext base_dir project_root
    else none
  let type_name := if instTruthy && !(hdr.any (fun e => e.1 == "type"))
    then "Instance" else dictGetD hdr "type" "Node"
  let pf_full : Option String × String :=
    if idx = 0 then (none, rootName)
    else
      let pf := match parent_raw with
        | none => rootName
        | some s => if s = "" ∨ s = "." then rootName
            else rootName ++ "/" ++ s
      (some pf, pf ++ "/" ++ name)
  let script_path := if props.any (fun e => e.1 == "script")
    then parse_script_value (dictGetD props "script" "") ext base_dir
      project_root
    else none
  nodeUpsert tbl pf_full.2
    ⟨name, type_name, pf_full.1, idx, script_path, instance_path⟩

/-- The children appended to the record at key pkey by the linking loop of
report.py lines 522-532, in table order: every record other than the root
record whose parent key equals pkey. -/
def childEntries (tbl : List (String × NodeRec)) (rootName pkey : String) :
    List (String × NodeRec) :=
  tbl.filter (fun e => !(e.1 == rootName) &&
    !((e.2.parent_full.getD "") == "") && (e.2.parent_full == some pkey))

/-- The warnings of the linking loop (report.py lines 522-532); a
parent_full of None or of the empty string is falsy in Python, so both
yield the no-parent warning. -/
def linkWarnings (tbl : List (String × NodeRec)) (rootName : String) :
    List String :=
  tbl.filterMap (fun e =>
    if e.1 == rootName then none
    else
      match e.2.parent_full with
      | none => some ("Node has no parent: " ++ e.1)
      | some pf =>
        if pf == "" then some ("Node has no parent: " ++ e.1)
        else if tbl.any (fun e2 => e2.1 == pf) then none
        else some ("Missing parent " ++ sq ++ pf ++ sq ++ " for node: "
          ++ e.1))

/-- The stable by-declaration-order sort of each children list (report.py
lines 534-535). -/
def sortByOrder (l : List (String × NodeRec)) : List (String × NodeRec) :=
  insertionSort (fun a b => decide (a.2.order ≤ b.2.order)) l

/-- Materialise the subtree rooted at one table record: its children are
the table records whose parent key is this record's key, in stable
declaration order.  The fuel is instantiated with the table size, which
bounds the depth because a child's key is strictly longer than its
parent's and keys are unique in the table. -/
def buildTree (tbl : List (String × NodeRec)) (rootName : String) :
    Nat → String → NodeRec → SceneNode
  | 0, _, n =>
    .mk n.name n.type_name n.parent_full n.order n.script_path
      n.instance_path []
  | fuel + 1, key, n =>
    .mk n.name n.type_name n.parent_full n.order n.script_path
      n.instance_path
      ((sortByOrder (childEntries tbl rootName key)).map
        (fun e => buildTree tbl rootName fuel e.1 e.2))

/-- Embedding of parse_tscn (report.py lines 399-544) on decoded text:
tokenize the stripped lines, build the node table keyed by full path,
link and order children, and collect the reference set. -/
def parse_tscn_text (project_root base_dir : PPath) (text : String) :
    SceneParseResult :=
  let st := tscnFlush (tscnLoop (pySplitlines text.data) initTokState)
  match st.nodes with
  | [] =>
    ⟨none, st.conns, [],
      st.warns ++ ["No [node ...] blocks found; file may not be a text .tscn or format is unexpected."]⟩
  | n0 :: _ =>
    let ext_norm := st.ext.map
      (fun e => (e.1, normalize_res_like_path e.2 base_dir project_root))
    let rootName := dictGetD n0.1 "name" "<ROOT>"
    let rootType := dictGetD n0.1 "type" "Node"
    let tbl0 : List (String × NodeRec) :=
      [(rootName, ⟨rootName, rootType, none, n0.2.2, none, none⟩)]
    let tbl := st.nodes.foldl
      (stage2step rootName base_dir project_root ext_norm) tbl0
    let warns := st.warns ++ linkWarnings tbl rootName
    let rootRec := match tbl.find? (fun e => e.1 == rootName) with
      | some e => e.2
      | none => ⟨rootName, rootType, none, n0.2.2, none, none⟩
    let refs0 := (ext_norm.map (fun e => e.2)).foldl setAdd []
    let refs1 := setUnion refs0
      (extract_res_uid_strings text base_dir project_root)
    let refs := (extResFindall text.data).foldl
      (fun refs rid_raw =>
        let rid : String := ⟨pyStripWs rid_raw⟩
        if rid ≠ "" then
          match dictGet? ext_norm rid with
          | some p => setAdd refs p
          | none => refs
        else refs) refs1
    ⟨some (buildTree tbl rootName tbl.length rootName rootRec),
      st.conns, refs, warns⟩

/-- Embedding of ExportedVar (report.py lines 613-618). -/
structure ExportedVar where
  decorators : List String
  name : String
  vtype : String
  default : String
deriving DecidableEq, Repr

/-- Embedding of VAR_DECL_RE (report.py line 599) under re.match: an
anchored variable declaration with optional type annotation and optional
default expression, the optional groups absent as none.  The Python
backtracking collapses to a deterministic reading at every boundary; in
the one place it does not (a type annotation consisting purely of
whitespace), the group captures the last whitespace character, exactly as
the engine backtracks. -/
def varDeclMatch (l : List Char) :
    Option (String × Option String × Option String) :=
  let l1 := l.dropWhile pyIsSpace
  if "var".data.isPrefixOf l1 then
    match l1.drop 3 with
    | c0 :: _ =>
      if pyIsSpace c0 then
        let r1 := (l1.drop 3).dropWhile pyIsSpace
        match r1 with
        | c1 :: _ =>
          if c1.isAlpha || c1 == '_' then
            let nm : String := ⟨r1.takeWhile isWordChar⟩
            match (r1.dropWhile isWordChar).dropWhile pyIsSpace with
            | ':' :: r3 =>
              let a := r3.takeWhile (fun c => !(c == '='))
              if a.isEmpty then none
              else
                let aw := a.dropWhile pyIsSpace
                let g2 : List Char := if aw.isEmpty
                  then (match a.getLast? with | some c => [c] | none => [])
                  else aw
                match r3.dropWhile (fun c => !(c == '=')) with
                | [] => some (nm, some ⟨g2⟩, none)
                | '=' :: r4 =>
                  some (nm, some ⟨g2⟩, some ⟨r4.dropWhile pyIsSpace⟩)
                | _ => none
            | '=' :: r4 => some (nm, none, some ⟨r4.dropWhile pyIsSpace⟩)
            | [] => some (nm, none, none)
            | _ => none
          else none
        | [] => none
      else none
    | [] => none
  else none

/-- Python str.split(pat, 1): the part before the first occurrence and,
when the pattern occurs, the part after it. -/
def splitFirst (pat : List Char) : List Char → List Char × Option (List Char)
  | [] => ([], none)
  | c :: rest =>
    if pat.isPrefixOf (c :: rest) then ([], some ((c :: rest).drop pat.length))
    else
      let r := splitFirst pat rest
      (c :: r.1, r.2)

/-- The strip applied to an optional regex group, (group or "").strip() of
report.py lines 669-671 and 685-687. -/
def stripGroup (o : Option String) : String :=
  ⟨pyStripWs (o.getD "").data⟩

/-- One line of the exported-variable pass of parse_gd (report.py lines
653-692).  The state is the accumulated exports with the pending
decorator lines; none models the uncaught IndexError the Python code
raises when a decorator line merely ends in var so that the padded
containment test passes but the split finds no separator. -/
def gdExportLine (st : List ExportedVar × List String) (raw : List Char) :
    Option (List ExportedVar × List String) :=
  let line := pyRStrip raw
  let s := pyStripWs line
  if s.isEmpty || listStartsWith "#".data s then some st
  else if listStartsWith "@export".data s then
    if containsSub " var ".data (' ' :: (s ++ [' '])) then
      match (splitFirst " var ".data s).2 with
      | none => none
      | some tl =>
        let deco_only : String := ⟨pyStripWs (splitFirst " var ".data s).1⟩
        let rest := "var ".data ++ pyStripWs tl
        match varDeclMatch rest with
        | some g =>
          some (st.1 ++ [⟨[deco_only], g.1, stripGroup g.2.1,
            stripGroup g.2.2⟩], [])
        | none => some (st.1, [])
    else some (st.1, st.2 ++ [⟨s⟩])
  else
    if st.2.isEmpty then some st
    else
      let st1 : List ExportedVar × List String :=
        match varDeclMatch line with
        | some g =>
          (st.1 ++ [⟨st.2, g.1, stripGroup g.2.1, stripGroup g.2.2⟩],
            ([] : List String))
        | none => st
      if st1.2.length > 8 then some (st1.1, st1.2.drop (st1.2.length - 2))
      else some st1

/-- Embedding of the exported-variable pass of parse_gd (report.py lines
650-692): fold the lines through gdExportLine starting from no exports
and no pending decorators.  The other fields parse_gd computes (class
name, base class, signals, literal references, connect calls) are
separate lexical passes that do not interact with this one. -/
def parse_gd_exports (text : String) : Option (List ExportedVar) :=
  ((pySplitlines text.data).foldlM gdExportLine
    (([], []) : List ExportedVar × List String)).map (fun st => st.1)

/-- A decorator-marker line of the exported-variable pass: after stripping
it starts with @export and carries no inline " var " separator, so
gdExportLine buffers it as pending (report.py lines 659-676). -/
def isDecoLine (l : List Char) : Bool :=
  let s := pyStripWs (pyRStrip l)
  listStartsWith "@export".data s &&
    !(containsSub " var ".data (' ' :: (s ++ [' '])))

/-- A line that neither matches the variable-declaration pattern nor opens
an export: blank or comment, or a non-export line with no var match; such
a line never adds an export record (report.py lines 655-657, 678-692). -/
def isNeutralLine (l : List Char) : Bool :=
  let s := pyStripWs (pyRStrip l)
  (s.isEmpty || listStartsWith "#".data s) ||
    (!(listStartsWith "@export".data s) && (varDeclMatch (pyRStrip l)).isNone)

/-- A plain variable-declaration line: non-blank, not a comment, not an
@export line, so gdExportLine reaches its var-matching branch
(report.py lines 678-689). -/
def isPlainVarLine (l : List Char) : Bool :=
  let s := pyStripWs (pyRStrip l)
  !(s.isEmpty) && !(listStartsWith "#".data s) &&
    !(listStartsWith "@export".data s)

/-- Strict UTF-8 decoding of a byte sequence, Python bytes.decode with the
utf-8 codec: none as soon as any sequence is ill-formed (overlong,
surrogate, out of range, truncated, or a stray byte).  The fuel is
instantiated with the byte count, which bounds the steps since every step
consumes at least one byte. -/
def utf8DecodeStrictF : Nat → List Nat → Option (List Char)
  | 0, [] => some []
  | 0, _ :: _ => none
  | _ + 1, [] => some []
  | fuel + 1, b :: rest =>
    if b < 0x80 then
      (utf8DecodeStrictF fuel rest).map (fun cs => Char.ofNat b :: cs)
    else if 0xc2 ≤ b ∧ b ≤ 0xdf then
      match rest with
      | b2 :: r2 =>
        if 0x80 ≤ b2 ∧ b2 ≤ 0xbf then
          (utf8DecodeStrictF fuel r2).map
            (fun cs => Char.ofNat ((b - 0xc0) * 0x40 + (b2 - 0x80)) :: cs)
        else none
      | [] => none
    else if 0xe0 ≤ b ∧ b ≤ 0xef then
      match rest with
      | b2 :: b3 :: r2 =>
        if (0x80 ≤ b2 ∧ b2 ≤ 0xbf) ∧ (0x80 ≤ b3 ∧ b3 ≤ 0xbf) ∧
            ¬ (b = 0xe0 ∧ b2 < 0xa0) ∧ ¬ (b = 0xed ∧ 0xa0 ≤ b2) then
          (utf8DecodeStrictF fuel r2).map
            (fun cs => Char.ofNat
              ((b - 0xe0) * 0x1000 + (b2 - 0x80) * 0x40 + (b3 - 0x80)) :: cs)
        else none
      | _ => none
    else if 0xf0 ≤ b ∧ b ≤ 0xf4 then
      match rest with
      | b2 :: b3 :: b4 :: r2 =>
        if (0x80 ≤ b2 ∧ b2 ≤ 0xbf) ∧ (0x80 ≤ b3 ∧ b3 ≤ 0xbf) ∧
            (0x80 ≤ b4 ∧ b4 ≤ 0xbf) ∧
            ¬ (b = 0xf0 ∧ b2 < 0x90) ∧ ¬ (b = 0xf4 ∧ 0x90 ≤ b2) then
          (utf8DecodeStrictF fuel r2).map
            (fun cs => Char.ofNat
              ((b - 0xf0) * 0x40000 + (b2 - 0x80) * 0x1000 +
                (b3 - 0x80) * 0x40 + (b4 - 0x80)) :: cs)
        else none
      | _ => none
    else none

def utf8DecodeStrict (bs : List Nat) : Option (List Char) :=
  utf8DecodeStrictF bs.length bs

/-- Replacing UTF-8 decode, Python bytes.decode with errors replace: every
maximal ill-formed subpart becomes one replacement character. -/
def utf8DecodeReplaceF : Nat → List Nat → List Char
  | 0, _ => []
  | _ + 1, [] => []
  | fuel + 1, b :: rest =>
    if b < 0x80 then Char.ofNat b :: utf8DecodeReplaceF fuel rest
    else if 0xc2 ≤ b ∧ b ≤ 0xdf then
      match rest with
      | b2 :: r2 =>
        if 0x80 ≤ b2 ∧ b2 ≤ 0xbf then
          Char.ofNat ((b - 0xc0) * 0x40 + (b2 - 0x80)) ::
            utf8DecodeReplaceF fuel r2
        else '�' :: utf8DecodeReplaceF fuel rest
      | [] => ['�']
    else if 0xe0 ≤ b ∧ b ≤ 0xef then
      match rest with
      | b2 :: b3 :: r2 =>
        if (0x80 ≤ b2 ∧ b2 ≤ 0xbf) ∧ ¬ (b = 0xe0 ∧ b2 < 0xa0) ∧
            ¬ (b = 0xed ∧ 0xa0 ≤ b2) then
          if 0x80 ≤ b3 ∧ b3 ≤ 0xbf then
            Char.ofNat ((b - 0xe0) * 0x1000 + (b2 - 0x80) * 0x40 +
              (b3 - 0x80)) :: utf8DecodeReplaceF fuel r2
          else '�' :: utf8DecodeReplaceF fuel (b3 :: r2)
        else '�' :: utf8DecodeReplaceF fuel rest
      | [b2] =>
        if (0x80 ≤ b2 ∧ b2 ≤ 0xbf) ∧ ¬ (b = 0xe0 ∧ b2 < 0xa0) ∧
            ¬ (b = 0xed ∧ 0xa0 ≤ b2) then ['�']
        else '�' :: utf8DecodeReplaceF fuel [b2]
      | [] => ['�']
    else if 0xf0 ≤ b ∧ b ≤ 0xf4 then
      match rest with
      | b2 :: b3 :: b4 :: r2 =>
        if (0x80 ≤ b2 ∧ b2 ≤ 0xbf) ∧ ¬ (b = 0xf0 ∧ b2 < 0x90) ∧
            ¬ (b = 0xf4 ∧ 0x90 ≤ b2) then
          if 0x80 ≤ b3 ∧ b3 ≤ 0xbf then
            if 0x80 ≤ b4 ∧ b4 ≤ 0xbf then
              Char.ofNat ((b - 0xf0) * 0x40000 + (b2 - 0x80) * 0x1000 +
                (b3 - 0x80) * 0x40 + (b4 - 0x80)) ::
                utf8DecodeReplaceF fuel r2
            else '�' :: utf8DecodeReplaceF fuel (b4 :: r2)
          else '�' :: utf8DecodeReplaceF fuel (b3 :: b4 :: r2)
        else '�' :: utf8DecodeReplaceF fuel rest
      | b2 :: b3 :: r2 =>
        if (0x80 ≤ b2 ∧ b2 ≤ 0xbf) ∧ ¬ (b = 0xf0 ∧ b2 < 0x90) ∧
            ¬ (b = 0xf4 ∧ 0x90 ≤ b2) then
          if 0x80 ≤ b3 ∧ b3 ≤ 0xbf then ['�']
          else '�' :: utf8DecodeReplaceF fuel (b3 :: r2)
        else '�' :: utf8DecodeReplaceF fuel rest
      | [b2] =>
        if (0x80 ≤ b2 ∧ b2 ≤ 0xbf) ∧ ¬ (b = 0xf0 ∧ b2 < 0x90) ∧
            ¬ (b = 0xf4 ∧ 0x90 ≤ b2) then ['�']
        else '�' :: utf8DecodeReplaceF fuel [b2]
      | [] => ['�']
    else '�' :: utf8DecodeReplaceF fuel rest

def utf8DecodeReplace (bs : List Nat) : List Char :=
  utf8DecodeReplaceF bs.length bs

/-- Embedding of read_text (report.py lines 77-81): strict UTF-8 decoding
of the file bytes, falling back on the replacing decode when it raises. -/
def read_text (bs : List Nat) : String :=
  match utf8DecodeStrict bs with
  | some cs => ⟨cs⟩
  | none => ⟨utf8DecodeReplace bs⟩

/-- Embedding of parse_tscn at the byte level (report.py lines 399-400):
read the file with read_text, then parse the resulting text. -/
def parse_tscn (project_root base_dir : PPath) (bs : List Nat) :
    SceneParseResult :=
  parse_tscn_text project_root base_dir (read_text bs)

/-- Attribute rendering for constructed heading lines: pairs as
key="value", separated by single spaces. -/
def renderAttrs : List (String × String) → List Char
  | [] => []
  | p :: ps =>
    p.1.data ++ '=' :: '"' :: (p.2.data ++ '"' ::
      (if ps.isEmpty then [] else ' ' :: renderAttrs ps))

/-- A heading line with the given tag and attributes. -/
def mkHeadingLine (tag : String) (ps : List (String × String)) : List Char :=
  ('[' :: (tag.data ++ ' ' :: renderAttrs ps)) ++ [']']

/-- A value safe inside a double-quoted attribute of a constructed
heading: free of double quotes and of line-break characters. -/
def goodAttrValue (v : String) : Bool :=
  v.data.all (fun c => !(c == '"') && !(c == '\r') && !(isLineBreakChar c))

/-- A child node heading with the given name and parent the root. -/
def mkNodeLine (nm : String) : List Char :=
  mkHeadingLine "node" [("name", nm), ("parent", ".")]

/-- Description of one constructed connection heading; a missing method
attribute is rendered as an absent attribute. -/
structure ConnDesc where
  sig : String
  frm : String
  tov : String
  method : Option String

def connAttrs (c : ConnDesc) : List (String × String) :=
  [("signal", c.sig), ("from", c.frm), ("to", c.tov)] ++
    (match c.method with | some m => [("method", m)] | none => [])

def mkConnLine (c : ConnDesc) : List Char :=
  mkHeadingLine "connection" (connAttrs c)

/-- Well-formedness of a constructed connection heading: the three always
present attributes are nonempty and quotable, and the method attribute,
when present, likewise. -/
def goodConn (c : ConnDesc) : Bool :=
  goodAttrValue c.sig && (c.sig != "") &&
  goodAttrValue c.frm && (c.frm != "") &&
  goodAttrValue c.tov && (c.tov != "") &&
  (match c.method with
   | some m => goodAttrValue m && (m != "")
   | none => true)

/-- The SceneConnection a constructed connection heading yields, none for
a heading without a method attribute. -/
def connRecord (c : ConnDesc) : Option SceneConnection :=
  match c.method with
  | some m => some ⟨c.sig, c.frm, c.tov, m⟩
  | none => none

/-- The warning a constructed connection heading yields, none for a
well-formed one. -/
def connWarning (c : ConnDesc) : Option String :=
  match c.method with
  | some _ => none
  | none => some ("Malformed connection heading: " ++ ⟨mkConnLine c⟩)

/-- The header-record triples the tokenizer produces for a run of child
node headings starting at the given declaration index. -/
def childNodesFrom (names : List String) (k : Nat) :
    List (List (String × String) × List (String × String) × Nat) :=
  match names with
  | [] => []
  | nm :: rest =>
    ([("name", nm), ("parent", ".")], [], k) :: childNodesFrom rest (k + 1)

/-- The node-table entries the table loop produces for a run of child
node headings under the root, starting at the given declaration index. -/
def childRecs (rootName : String) (names : List String) (k : Nat) :
    List (String × NodeRec) :=
  match names with
  | [] => []
  | nm :: rest =>
    (rootName ++ "/" ++ nm, ⟨nm, "Node", some rootName, k, none, none⟩) ::
      childRecs rootName rest (k + 1)

/-- Bytes of a scene file that is not valid UTF-8 (a stray 0xff byte at
the end) but still carries an ext_resource heading and a node heading. -/
def c8Bytes : List Nat :=
  ("[gd_scene]\n[ext_resource id=\"1\" path=\"res://a.png\"]\n[node name=\"R\"]\n"
    : String).data.map Char.toNat ++ [0xff]

/-! ## Supporting lemmas -/

theorem dropWhile_head_false {α : Type} {p : α → Bool} {l t : List α} {c : α}
    (h : l.dropWhile p = c :: t) : p c = false := by
  induction l with
  | nil => simp at h
  | cons a as ih =>
    rw [List.dropWhile_cons] at h
    by_cases hp : p a = true
    · rw [if_pos hp] at h; exact ih h
    · rw [if_neg hp] at h
      injection h with h1 _
      subst h1
      simpa using hp

theorem splitOnChar_ne_nil (sep : Char) (l : List Char) :
    splitOnChar sep l ≠ [] := by
  cases l with
  | nil => simp [splitOnChar]
  | cons c rest =>
    rw [splitOnChar]
    by_cases h : (c == sep) = true
    · simp [h]
    · simp only [h]
      rcases hr : splitOnChar sep rest with _ | ⟨x, xs⟩ <;> simp

theorem splitOnChar_not_mem (sep : Char) (l : List Char) :
    ∀ piece ∈ splitOnChar sep l, sep ∉ piece := by
  induction l with
  | nil =>
    intro piece hp
    simp [splitOnChar] at hp
    subst hp; simp
  | cons c rest ih =>
    intro piece hp
    rw [splitOnChar] at hp
    by_cases h : (c == sep) = true
    · simp only [h, if_pos] at hp
      rcases List.mem_cons.mp hp with rfl | hmem
      · simp
      · exact ih piece hmem
    · simp only [h] at hp
      obtain ⟨x, xs, hr⟩ : ∃ x xs, splitOnChar sep rest = x :: xs := by
        rcases hq : splitOnChar sep rest with _ | ⟨x, xs⟩
        · exact absurd hq (splitOnChar_ne_nil sep rest)
        · exact ⟨x, xs, rfl⟩
      rw [hr] at hp
      simp only [Bool.if_false_left] at hp
      rcases List.mem_cons.mp hp with rfl | hmem
      · intro hc
        rcases List.mem_cons.mp hc with rfl | hc2
        · simp at h
        · exact ih x (hr ▸ List.mem_cons_self x xs) hc2
      · exact ih piece (hr ▸ List.mem_cons_of_mem x hmem)

theorem pathSegments_props (s : List Char) :
    ∀ t ∈ pathSegments s, t ≠ "" ∧ t ≠ "." ∧ ¬ t.data.contains '/' = true := by
  intro t ht
  unfold pathSegments at ht
  rw [List.mem_filter] at ht
  obtain ⟨hmem, hcond⟩ := ht
  rw [List.mem_map] at hmem
  obtain ⟨piece, hpiece, rfl⟩ := hmem
  have hns : '/' ∉ piece := splitOnChar_not_mem '/' s piece hpiece
  refine ⟨?_, ?_, ?_⟩
  · intro h; simp [h] at hcond
  · intro h; simp [h] at hcond
  · intro hc
    rw [List.contains_eq_any_beq, List.any_eq_true] at hc
    obtain ⟨x, hx, hbeq⟩ := hc
    rw [beq_iff_eq] at hbeq
    exact hns (hbeq ▸ hx)

theorem resolveParts_ok {acc parts : List String}
    (ha : ∀ t ∈ acc, okComponent t = true)
    (hp : ∀ t ∈ parts, ¬ t.data.contains '/' = true) :
    ∀ t ∈ resolveParts acc parts, okComponent t = true := by
  induction parts generalizing acc with
  | nil => intro t ht; exact ha t ht
  | cons p rest ih =>
    intro t ht
    rw [resolveParts] at ht
    by_cases h1 : (p == "..") = true
    · rw [if_pos h1] at ht
      exact ih (fun u hu => ha u (List.dropLast_subset acc hu))
        (fun u hu => hp u (List.mem_cons_of_mem p hu)) t ht
    · rw [if_neg h1] at ht
      by_cases h2 : (p == "." || p == "") = true
      · rw [if_pos h2] at ht
        exact ih ha (fun u hu => hp u (List.mem_cons_of_mem p hu)) t ht
      · rw [if_neg h2] at ht
        refine ih ?_ (fun u hu => hp u (List.mem_cons_of_mem p hu)) t ht
        intro u hu
        rcases List.mem_append.mp hu with hu1 | hu2
        · exact ha u hu1
        · rcases List.mem_singleton.mp hu2 with rfl
          simp only [Bool.or_eq_true, beq_iff_eq, not_or] at h1 h2
          unfold okComponent
          have hslash := hp u (List.mem_cons_self u rest)
          simp only [Bool.and_eq_true, bne_iff_ne, ne_eq, Bool.not_eq_true']
          refine ⟨⟨⟨?_, ?_⟩, ?_⟩, ?_⟩
          · exact h2.2
          · exact h2.1
          · exact h1
          · simpa using hslash

theorem joinRel_cases (b : PPath) (s : List Char) :
    joinRel b s = ⟨pathSegments s⟩ ∨ joinRel b s = ⟨b.parts ++ pathSegments s⟩ := by
  unfold joinRel
  split
  · exact Or.inl rfl
  · exact Or.inr rfl

theorem okComponent_no_slash {t : String} (h : okComponent t = true) :
    ¬ t.data.contains '/' = true := by
  unfold okComponent at h
  simp only [Bool.and_eq_true, Bool.not_eq_true'] at h
  rw [h.2]
  simp

theorem resolvePath_joinRel_ok {b : PPath} (hb : okPath b = true)
    (s : List Char) :
    ∀ t ∈ (resolvePath (joinRel b s)).parts, okComponent t = true := by
  have hbase : ∀ t ∈ b.parts, ¬ t.data.contains '/' = true := by
    intro t ht
    exact okComponent_no_slash (List.all_eq_true.mp hb t ht)
  rcases joinRel_cases b s with h | h <;> rw [h] <;> unfold resolvePath <;>
    simp only
  · exact resolveParts_ok (by simp)
      (fun t ht => (pathSegments_props s t ht).2.2)
  · refine resolveParts_ok (by simp) ?_
    intro t ht
    rcases List.mem_append.mp ht with h1 | h2
    · exact hbase t h1
    · exact (pathSegments_props s t h2).2.2

theorem data_mk (l : List Char) : (⟨l⟩ : String).data = l := rfl

theorem not_mem_of_contains_false {l : List Char} {c : Char}
    (h : l.contains c = false) : c ∉ l := by
  intro hm
  rw [List.contains_eq_any_beq] at h
  have ht : l.any (fun x => c == x) = true :=
    List.any_eq_true.mpr ⟨c, hm, by simp⟩
  rw [h] at ht
  exact Bool.false_ne_true ht

theorem joinSep_head {sep x : List Char} {xs : List (List Char)}
    (hx : x ≠ []) : (joinSep sep (x :: xs)).head? = x.head? := by
  cases xs with
  | nil => rfl
  | cons y ys =>
    show (x ++ sep ++ joinSep sep (y :: ys)).head? = x.head?
    rw [List.append_assoc, List.head?_append]
    cases x with
    | nil => exact absurd rfl hx
    | cons a t => rfl

theorem joinSep_cons_ne_nil {sep x : List Char} {xs : List (List Char)}
    (hx : x ≠ []) : joinSep sep (x :: xs) ≠ [] := by
  cases xs with
  | nil => exact hx
  | cons y ys =>
    show x ++ sep ++ joinSep sep (y :: ys) ≠ []
    cases x with
    | nil => exact absurd rfl hx
    | cons a t => simp

theorem eq_of_startsWith {pre l : List Char}
    (h : listStartsWith pre l = true) : ∃ t, l = pre ++ t := by
  induction pre generalizing l with
  | nil => exact ⟨l, rfl⟩
  | cons a as ih =>
    cases l with
    | nil => simp [listStartsWith, List.isPrefixOf] at h
    | cons b bs =>
      unfold listStartsWith List.isPrefixOf at h
      rw [Bool.and_eq_true, beq_iff_eq] at h
      obtain ⟨rfl, h2⟩ := h
      obtain ⟨t, rfl⟩ := ih h2
      exact ⟨t, rfl⟩

theorem startsWith_false_of_head {a b : Char} (pre l : List Char)
    (h : ¬ a = b) : listStartsWith (a :: pre) (b :: l) = false := by
  unfold listStartsWith List.isPrefixOf
  simp [beq_iff_eq, h]

theorem startsWith_res (t : List Char) :
    listStartsWith "res://".data ('r' :: 'e' :: 's' :: ':' :: '/' :: '/' :: t)
      = true := by
  have h : "res://".data = ['r', 'e', 's', ':', '/', '/'] := rfl
  rw [listStartsWith, h]
  simp [List.isPrefixOf]

theorem to_res_path_some_shape {root p : PPath} {out : String}
    (hok : ∀ t ∈ p.parts, okComponent t = true)
    (h : to_res_path root p = some out) :
    out = "res://" ∨
    ∃ tl : List Char, tl ≠ [] ∧ (∀ c, tl.head? = some c → ¬ c = '/') ∧
      out = ⟨'r' :: 'e' :: 's' :: ':' :: '/' :: '/' :: '/' :: tl⟩ := by
  unfold to_res_path at h
  by_cases htake : p.parts.take root.parts.length = root.parts
  · rw [if_pos htake] at h
    by_cases hrel : p.parts.drop root.parts.length = []
    · rw [if_pos hrel] at h
      left
      exact (Option.some.inj h).symm
    · rw [if_neg hrel] at h
      obtain ⟨x, xs, hx⟩ : ∃ x xs, p.parts.drop root.parts.length = x :: xs := by
        rcases hq : p.parts.drop root.parts.length with _ | ⟨x, xs⟩
        · exact absurd hq hrel
        · exact ⟨x, xs, rfl⟩
      have hxmem : x ∈ p.parts := by
        have : x ∈ p.parts.drop root.parts.length := by
          rw [hx]; exact List.mem_cons_self x xs
        exact List.drop_subset _ p.parts this
      have hxok := hok x hxmem
      have hxne : x.data ≠ [] := by
        intro hq
        unfold okComponent at hxok
        simp only [Bool.and_eq_true, bne_iff_ne, ne_eq] at hxok
        exact hxok.1.1.1 (String.ext hq)
      have hxns : '/' ∉ x.data := not_mem_of_contains_false (by
        unfold okComponent at hxok
        simp only [Bool.and_eq_true, Bool.not_eq_true'] at hxok
        exact hxok.2)
      have hhead : ∀ c, (joinSep ['/'] ((x :: xs).map String.data)).head?
          = some c → ¬ c = '/' := by
        intro c hc
        rw [List.map_cons, joinSep_head hxne] at hc
        intro hceq
        subst hceq
        cases hx2 : x.data with
        | nil => exact hxne hx2
        | cons a t =>
          rw [hx2] at hc
          injection hc with ha
          apply hxns
          rw [hx2, ← ha]
          exact List.mem_cons_self a t
      have hne2 : joinSep ['/'] ((x :: xs).map String.data) ≠ [] := by
        rw [List.map_cons]
        exact joinSep_cons_ne_nil hxne
      rw [hx] at h
      right
      refine ⟨joinSep ['/'] ((x :: xs).map String.data), hne2, hhead, ?_⟩
      have hcond : ¬ ((joinSep ['/'] ((x :: xs).map String.data)).head?
          = some '/') := by
        intro hq
        exact hhead '/' hq rfl
      simp only [if_neg hcond, Option.some.injEq] at h
      rw [← h]
      apply String.ext
      rfl
  · rw [if_neg htake] at h
    exact absurd h (by simp)

theorem normalize_uid (s : List Char) (b r : PPath) (hst : pyStrip3 s = s)
    (h1 : listStartsWith "uid://".data s = true) :
    normalize_res_like_path ⟨s⟩ b r = ⟨s⟩ := by
  have hne : s ≠ [] := by
    intro h
    subst h
    simp [listStartsWith, List.isPrefixOf, show "uid://".data
      = ['u', 'i', 'd', ':', '/', '/'] from rfl] at h1
  simp only [normalize_res_like_path, data_mk]
  rw [hst, if_neg hne, if_pos h1]

theorem normalize_res_form (t : List Char) (b r : PPath) (ht : t ≠ [])
    (hh : ∀ c, t.head? = some c → ¬ c = '/')
    (hst : pyStrip3 ('r' :: 'e' :: 's' :: ':' :: '/' :: '/' :: '/' :: t)
         = 'r' :: 'e' :: 's' :: ':' :: '/' :: '/' :: '/' :: t) :
    normalize_res_like_path ⟨'r' :: 'e' :: 's' :: ':' :: '/' :: '/' :: '/' :: t⟩ b r
      = ⟨'r' :: 'e' :: 's' :: ':' :: '/' :: '/' :: '/' :: t⟩ := by
  simp only [normalize_res_like_path, data_mk]
  rw [hst]
  rw [if_neg (by simp : ¬ ('r' :: 'e' :: 's' :: ':' :: '/' :: '/' :: '/' :: t
    = []))]
  rw [if_neg (by
    rw [startsWith_false_of_head _ _ (by decide : ¬ 'u' = 'r')]
    simp)]
  rw [if_pos (startsWith_res ('/' :: t))]
  have hdrop : ('r' :: 'e' :: 's' :: ':' :: '/' :: '/' :: '/' :: t).drop 6
      = '/' :: t := rfl
  rw [hdrop]
  have hdw : ('/' :: t).dropWhile (fun c => c == '/') = t := by
    rw [List.dropWhile_cons, if_pos (by simp)]
    cases t with
    | nil => rfl
    | cons c cs =>
      rw [List.dropWhile_cons, if_neg (by
        simp only [beq_iff_eq]
        exact hh c rfl)]
  rw [hdw, if_neg ht]
  apply String.ext
  rfl

theorem normalize_fallback (raw : String) (b r : PPath)
    (h0 : pyStrip3 raw.data ≠ [])
    (h1 : ¬ listStartsWith "uid://".data (pyStrip3 raw.data) = true)
    (h2 : ¬ listStartsWith "res://".data (pyStrip3 raw.data) = true)
    (h3 : to_res_path r (resolvePath (joinRel b (pyStrip3 raw.data))) = none) :
    normalize_res_like_path raw b r = ⟨pyStrip3 raw.data⟩ := by
  simp only [normalize_res_like_path]
  rw [if_neg h0, if_neg h1, if_neg h2, h3]

theorem lookupSet_cons (e : String × List String)
    (m : List (String × List String)) (k : String) :
    lookupSet (e :: m) k = if (e.1 == k) = true then e.2 else lookupSet m k := by
  by_cases h : (e.1 == k) = true
  · simp [lookupSet, List.find?_cons, h]
  · simp [lookupSet, List.find?_cons, h]

theorem isKey_cons (e : String × List String)
    (m : List (String × List String)) (k : String) :
    isKey (e :: m) k = ((e.1 == k) || isKey m k) := by
  simp [isKey]

theorem mem_lookupSet_mapUpd {m : List (String × List String)}
    {t src k x : String} :
    x ∈ lookupSet (m.map (fun e => if e.1 == t then
        (e.1, if src ∈ e.2 then e.2 else e.2 ++ [src]) else e)) k ↔
      (k = t ∧ isKey m k = true ∧ x = src) ∨ x ∈ lookupSet m k := by
  induction m with
  | nil => simp [lookupSet, isKey]
  | cons e es ih =>
    rw [List.map_cons, isKey_cons]
    by_cases he : (e.1 == t) = true
    · rw [if_pos he]
      have he2 : e.1 = t := by rwa [beq_iff_eq] at he
      rw [lookupSet_cons, lookupSet_cons]
      by_cases hk : (e.1 == k) = true
      · have hk2 : e.1 = k := by rwa [beq_iff_eq] at hk
        rw [if_pos (by simpa using hk), if_pos hk]
        have hkt : k = t := by rw [← hk2, he2]
        by_cases hs : src ∈ e.2
        · rw [if_pos hs]
          constructor
          · intro h; exact Or.inr h
          · rintro (⟨_, _, rfl⟩ | h)
            · exact hs
            · exact h
        · rw [if_neg hs]
          rw [List.mem_append, List.mem_singleton]
          constructor
          · rintro (h | rfl)
            · exact Or.inr h
            · exact Or.inl ⟨hkt, by simp [hk], rfl⟩
          · rintro (⟨_, _, rfl⟩ | h)
            · exact Or.inr rfl
            · exact Or.inl h
      · rw [if_neg (by simpa using hk), if_neg hk]
        rw [ih]
        have hkf : (e.1 == k) = false := by
          rcases hb : (e.1 == k) with _ | _
          · rfl
          · exact absurd hb hk
        rw [hkf]
        simp only [Bool.false_or]
    · rw [if_neg he]
      rw [lookupSet_cons, lookupSet_cons]
      by_cases hk : (e.1 == k) = true
      · rw [if_pos hk, if_pos hk]
        have hk2 : e.1 = k := by rwa [beq_iff_eq] at hk
        have hkt : ¬ k = t := by
          intro hq
          rw [← hk2] at hq
          rw [beq_iff_eq] at he
          exact he hq
        constructor
        · intro h; exact Or.inr h
        · rintro (⟨hq, _, _⟩ | h)
          · exact absurd hq hkt
          · exact h
      · rw [if_neg hk, if_neg hk, ih]
        have hkf : (e.1 == k) = false := by
          rcases hb : (e.1 == k) with _ | _
          · rfl
          · exact absurd hb hk
        rw [hkf]
        simp only [Bool.false_or]

theorem mem_lookupSet_revInsert {rev : List (String × List String)}
    {t src k x : String} :
    x ∈ lookupSet (revInsert rev t src) k ↔
      (k = t ∧ x = src) ∨ x ∈ lookupSet rev k := by
  unfold revInsert
  by_cases ha : rev.any (fun e => e.1 == t) = true
  · rw [if_pos ha, mem_lookupSet_mapUpd]
    constructor
    · rintro (⟨rfl, _, rfl⟩ | h)
      · exact Or.inl ⟨rfl, rfl⟩
      · exact Or.inr h
    · rintro (⟨rfl, rfl⟩ | h)
      · exact Or.inl ⟨rfl, ha, rfl⟩
      · exact Or.inr h
  · rw [if_neg ha]
    have hnone : rev.find? (fun e => e.1 == k) = none ∨ ¬ k = t := by
      by_cases hkt : k = t
      · subst hkt
        left
        rw [List.find?_eq_none]
        intro e he
        intro hbeq
        apply ha
        rw [List.any_eq_true]
        exact ⟨e, he, hbeq⟩
      · exact Or.inr hkt
    unfold lookupSet
    rw [List.find?_append]
    rcases hf : rev.find? (fun e => e.1 == k) with _ | e
    · rw [hf, Option.none_or]
      by_cases hkt : k = t
      · subst hkt
        simp [List.find?_cons]
      · rw [List.find?_cons]
        have hne : (((t, [src]) : String × List String).1 == k) = false := by
          rcases hb : (t == k) with _ | _
          · rfl
          · rw [beq_iff_eq] at hb
            exact absurd hb.symm hkt
        rw [hne]
        simp [hkt]
    · rw [hf, Option.or_some]
      have hkey := List.find?_some hf
      constructor
      · intro h; exact Or.inr h
      · rintro (⟨rfl, rfl⟩ | h)
        · exfalso
          apply ha
          rw [List.any_eq_true]
          exact ⟨e, List.mem_of_find?_eq_some hf, hkey⟩
        · exact h

theorem isKey_revInsert {rev : List (String × List String)} {t src k : String} :
    isKey (revInsert rev t src) k = true ↔ isKey rev k = true ∨ k = t := by
  unfold revInsert
  by_cases ha : rev.any (fun e => e.1 == t) = true
  · rw [if_pos ha]
    unfold isKey
    rw [List.any_map]
    have hcong : ∀ e : String × List String,
        ((fun e : String × List String => e.1 == k) ∘
          (fun e : String × List String => if e.1 == t then
            (e.1, if src ∈ e.2 then e.2 else e.2 ++ [src]) else e)) e
        = (e.1 == k) := by
      intro e
      by_cases he : (e.1 == t) = true
      · simp [Function.comp, he]
      · simp [Function.comp, he]
    have hfun : ((fun e : String × List String => e.1 == k) ∘
        (fun e : String × List String => if e.1 == t then
          (e.1, if src ∈ e.2 then e.2 else e.2 ++ [src]) else e))
        = (fun e : String × List String => e.1 == k) := funext hcong
    rw [hfun]
    constructor
    · intro h; exact Or.inl h
    · rintro (h | rfl)
      · exact h
      · exact ha
  · rw [if_neg ha]
    unfold isKey
    rw [List.any_append]
    simp only [List.any_cons, List.any_nil, Bool.or_false, Bool.or_eq_true,
      beq_iff_eq]
    constructor
    · rintro (h | h)
      · exact Or.inl h
      · exact Or.inr h.symm
    · rintro (h | rfl)
      · exact Or.inl h
      · exact Or.inr rfl

theorem mem_lookupSet_revfold {ts : List String}
    {rev : List (String × List String)} {src k x : String} :
    x ∈ lookupSet (ts.foldl (fun r t => revInsert r t src) rev) k ↔
      x ∈ lookupSet rev k ∨ (x = src ∧ k ∈ ts) := by
  induction ts generalizing rev with
  | nil => simp
  | cons t ts ih =>
    rw [List.foldl_cons, ih, mem_lookupSet_revInsert]
    simp only [List.mem_cons]
    tauto

theorem isKey_revfold {ts : List String}
    {rev : List (String × List String)} {src k : String} :
    isKey (ts.foldl (fun r t => revInsert r t src) rev) k = true ↔
      isKey rev k = true ∨ k ∈ ts := by
  induction ts generalizing rev with
  | nil => simp
  | cons t ts ih =>
    rw [List.foldl_cons, ih, isKey_revInsert]
    simp only [List.mem_cons]
    tauto

theorem mem_lookupSet_build {edges : List (String × List String)}
    {k x : String} :
    x ∈ lookupSet (build_reverse_index edges) k ↔
      ∃ p ∈ edges, p.1 = x ∧ k ∈ p.2 := by
  have haux : ∀ (es : List (String × List String))
      (rev0 : List (String × List String)),
      x ∈ lookupSet (es.foldl
          (fun rev p => p.2.foldl (fun r t => revInsert r t p.1) rev) rev0) k ↔
        x ∈ lookupSet rev0 k ∨ ∃ p ∈ es, p.1 = x ∧ k ∈ p.2 := by
    intro es
    induction es with
    | nil => simp
    | cons p ps ih =>
      intro rev0
      rw [List.foldl_cons, ih, mem_lookupSet_revfold]
      simp only [List.mem_cons]
      constructor
      · rintro ((h | ⟨rfl, hk⟩) | ⟨e, he, hx, hk⟩)
        · exact Or.inl h
        · exact Or.inr ⟨p, Or.inl rfl, rfl, hk⟩
        · exact Or.inr ⟨e, Or.inr he, hx, hk⟩
      · rintro (h | ⟨e, (rfl | he), hx, hk⟩)
        · exact Or.inl (Or.inl h)
        · exact Or.inl (Or.inr ⟨hx.symm, hk⟩)
        · exact Or.inr ⟨e, he, hx, hk⟩
  rw [build_reverse_index, haux]
  simp [lookupSet]

theorem isKey_build {edges : List (String × List String)} {k : String} :
    isKey (build_reverse_index edges) k = true ↔ ∃ p ∈ edges, k ∈ p.2 := by
  have haux : ∀ (es : List (String × List String))
      (rev0 : List (String × List String)),
      isKey (es.foldl
          (fun rev p => p.2.foldl (fun r t => revInsert r t p.1) rev) rev0) k
        = true ↔
        isKey rev0 k = true ∨ ∃ p ∈ es, k ∈ p.2 := by
    intro es
    induction es with
    | nil => simp
    | cons p ps ih =>
      intro rev0
      rw [List.foldl_cons, ih, isKey_revfold]
      simp only [List.mem_cons]
      constructor
      · rintro ((h | hk) | ⟨e, he, hk⟩)
        · exact Or.inl h
        · exact Or.inr ⟨p, Or.inl rfl, hk⟩
        · exact Or.inr ⟨e, Or.inr he, hk⟩
      · rintro (h | ⟨e, (rfl | he), hk⟩)
        · exact Or.inl (Or.inl h)
        · exact Or.inl (Or.inr hk)
        · exact Or.inr ⟨e, he, hk⟩
  rw [build_reverse_index, haux]
  simp [isKey]

theorem lookupSet_eq_of_nodup {edges : List (String × List String)}
    (h : (edges.map Prod.fst).Nodup) {p : String × List String}
    (hp : p ∈ edges) : lookupSet edges p.1 = p.2 := by
  induction edges with
  | nil => cases hp
  | cons e es ih =>
    rw [List.map_cons, List.nodup_cons] at h
    rcases List.mem_cons.mp hp with rfl | hmem
    · rw [lookupSet_cons, if_pos (by simp)]
    · rw [lookupSet_cons]
      have hne : ¬ (e.1 == p.1) = true := by
        rw [beq_iff_eq]
        intro hq
        exact h.1 (hq ▸ (List.mem_map_of_mem Prod.fst hmem))
      rw [if_neg hne]
      exact ih h.2 hmem

theorem mem_sortInsert {α : Type} (le : α → α → Bool) (x a : α) (l : List α) :
    a ∈ sortInsert le x l ↔ a = x ∨ a ∈ l := by
  induction l with
  | nil => simp [sortInsert]
  | cons y ys ih =>
    unfold sortInsert
    by_cases h : le x y = true
    · rw [if_pos h]
      simp only [List.mem_cons]
    · rw [if_neg h]
      simp only [List.mem_cons, ih]
      tauto

theorem mem_insertionSort {α : Type} (le : α → α → Bool) (a : α) (l : List α) :
    a ∈ insertionSort le l ↔ a ∈ l := by
  induction l with
  | nil => simp [insertionSort]
  | cons x xs ih =>
    unfold insertionSort
    rw [mem_sortInsert]
    simp only [List.mem_cons, ih]

theorem pairwise_sortInsert {α : Type} {le : α → α → Bool}
    (htot : ∀ a b, le a b = true ∨ le b a = true)
    (htrans : ∀ a b c, le a b = true → le b c = true → le a c = true)
    (x : α) {l : List α} (hl : l.Pairwise (fun a b => le a b = true)) :
    (sortInsert le x l).Pairwise (fun a b => le a b = true) := by
  induction l with
  | nil => simp [sortInsert]
  | cons y ys ih =>
    rw [List.pairwise_cons] at hl
    unfold sortInsert
    by_cases h : le x y = true
    · rw [if_pos h]
      rw [List.pairwise_cons]
      refine ⟨?_, List.pairwise_cons.mpr hl⟩
      intro b hb
      rcases List.mem_cons.mp hb with rfl | hmem
      · exact h
      · exact htrans x y b h (hl.1 b hmem)
    · rw [if_neg h]
      rw [List.pairwise_cons]
      constructor
      · intro b hb
        rcases (mem_sortInsert le x b ys).mp hb with rfl | hmem
        · rcases htot b y with hby | hyb
          · exact absurd hby h
          · exact hyb
        · exact hl.1 b hmem
      · exact ih hl.2

theorem pairwise_insertionSort {α : Type} {le : α → α → Bool}
    (htot : ∀ a b, le a b = true ∨ le b a = true)
    (htrans : ∀ a b c, le a b = true → le b c = true → le a c = true)
    (l : List α) :
    (insertionSort le l).Pairwise (fun a b => le a b = true) := by
  induction l with
  | nil => simp [insertionSort]
  | cons x xs ih =>
    unfold insertionSort
    exact pairwise_sortInsert htot htrans x ih

theorem insertionSort_eq_self {α : Type} {le : α → α → Bool} {l : List α}
    (hl : l.Pairwise (fun a b => le a b = true)) :
    insertionSort le l = l := by
  induction l with
  | nil => rfl
  | cons x xs ih =>
    rw [List.pairwise_cons] at hl
    unfold insertionSort
    rw [ih hl.2]
    cases xs with
    | nil => rfl
    | cons y ys =>
      unfold sortInsert
      rw [if_pos (hl.1 y (List.mem_cons_self y ys))]

theorem casefoldLe_total (a b : String) :
    casefoldLe a b = true ∨ casefoldLe b a = true := by
  unfold casefoldLe
  rcases le_total (pyCasefold a) (pyCasefold b) with h | h
  · exact Or.inl (decide_eq_true h)
  · exact Or.inr (decide_eq_true h)

theorem casefoldLe_trans (a b c : String) (h1 : casefoldLe a b = true)
    (h2 : casefoldLe b c = true) : casefoldLe a c = true := by
  unfold casefoldLe at h1 h2 ⊢
  exact decide_eq_true (le_trans (of_decide_eq_true h1) (of_decide_eq_true h2))

theorem braceStep_quoted {q : Char} {d : Int} (w : List Char)
    (hw : ∀ c ∈ w, ¬ c = q ∧ ¬ c = '\\') :
    w.foldl braceStep ⟨d, some q, false⟩ = ⟨d, some q, false⟩ := by
  induction w with
  | nil => rfl
  | cons c cs ih =>
    rw [List.foldl_cons]
    have hc := hw c (List.mem_cons_self c cs)
    have hstep : braceStep ⟨d, some q, false⟩ c = ⟨d, some q, false⟩ := by
      unfold braceStep
      simp only []
      rw [if_neg (by simp)]
      rw [if_neg (by simp only [beq_iff_eq]; exact hc.2)]
      rw [if_neg (by simp only [beq_iff_eq]; exact hc.1)]
    rw [hstep]
    exact ih (fun c2 hc2 => hw c2 (List.mem_cons_of_mem _ hc2))

theorem space_chars {c : Char} (h : pyIsSpace c = true) :
    c = ' ' ∨ c = '\t' ∨ c = '\n' ∨ c = '\r' ∨ c = '\x0b' ∨ c = '\x0c' ∨
    c = '\x1c' ∨ c = '\x1d' ∨ c = '\x1e' ∨ c = '\x1f' ∨ c = '\x85' ∨
    c = '\xa0' := by
  unfold pyIsSpace at h
  simp only [Bool.or_eq_true, beq_iff_eq] at h
  tauto

theorem word_not_space {c : Char} (h : isWordChar c = true) :
    pyIsSpace c = false := by
  rcases hb : pyIsSpace c with _ | _
  · rfl
  · exfalso
    rcases space_chars hb with rfl|rfl|rfl|rfl|rfl|rfl|rfl|rfl|rfl|rfl|rfl|rfl <;>
      exact absurd h (by decide)

theorem dropWhile_eq_self_of_head {α : Type} {p : α → Bool} {l : List α}
    (h : ∀ c, l.head? = some c → p c = false) : l.dropWhile p = l := by
  cases l with
  | nil => rfl
  | cons a t =>
    rw [List.dropWhile_cons, if_neg (by simp [h a rfl])]

theorem pyStripWs_eq_self {l : List Char}
    (h1 : ∀ c, l.head? = some c → pyIsSpace c = false)
    (h2 : ∀ c, l.getLast? = some c → pyIsSpace c = false) :
    pyStripWs l = l := by
  unfold pyStripWs stripEnds dropEndWhile
  rw [dropWhile_eq_self_of_head h1]
  rw [dropWhile_eq_self_of_head (by
    intro c hc
    rw [List.head?_reverse] at hc
    exact h2 c hc)]
  exact List.reverse_reverse l

theorem isEmpty_false_of_ne {α : Type} {l : List α} (h : l ≠ []) :
    l.isEmpty = false := by
  cases l with
  | nil => exact absurd rfl h
  | cons a t => rfl

theorem kvTry_render {k v : String} {rest : List Char}
    (hk1 : k.data ≠ []) (hk2 : ∀ c ∈ k.data, isWordChar c = true)
    (hv : ∀ c ∈ v.data, (c == '"') = false) :
    kvTry (k.data ++ '=' :: '"' :: (v.data ++ '"' :: rest))
      = some ((k, ⟨'"' :: (v.data ++ ['"'])⟩), rest) := by
  have htake : (k.data ++ '=' :: '"' :: (v.data ++ '"' :: rest)).takeWhile
      isWordChar = k.data := by
    rw [List.takeWhile_append_of_pos hk2, List.takeWhile_cons,
      if_neg (by decide)]
    exact List.append_nil _
  have hdrop : (k.data ++ '=' :: '"' :: (v.data ++ '"' :: rest)).dropWhile
      isWordChar = '=' :: '"' :: (v.data ++ '"' :: rest) := by
    rw [List.dropWhile_append_of_pos hk2, List.dropWhile_cons,
      if_neg (by decide)]
  have hvb : ∀ a ∈ v.data, (fun c => !(c == '"')) a = true := by
    intro a ha
    simp only [hv a ha]
    rfl
  have hdropv : (v.data ++ '"' :: rest).dropWhile (fun c => !(c == '"'))
      = '"' :: rest := by
    rw [List.dropWhile_append_of_pos hvb, List.dropWhile_cons,
      if_neg (by decide)]
  have htakev : (v.data ++ '"' :: rest).takeWhile (fun c => !(c == '"'))
      = v.data := by
    rw [List.takeWhile_append_of_pos hvb, List.takeWhile_cons,
      if_neg (by decide)]
    exact List.append_nil _
  unfold kvTry
  simp only [htake, hdrop, isEmpty_false_of_ne hk1, Bool.false_eq_true,
    if_false, List.dropWhile_cons]
  rw [if_neg (by decide : ¬ (pyIsSpace '=' = true))]
  simp only [List.dropWhile_cons]
  rw [if_neg (by decide : ¬ (pyIsSpace '"' = true))]
  simp only [hdropv, htakev]

theorem scanAllF_nil {α : Type} (step : List Char → Option (α × List Char))
    (fuel : Nat) : scanAllF step fuel [] = [] := by
  cases fuel <;> rfl

theorem kvTry_space (l : List Char) : kvTry (' ' :: l) = none := rfl

theorem scan_kv_render (ps : List (String × String)) :
    ∀ fuel : Nat, (renderAttrs ps).length ≤ fuel →
    (∀ p ∈ ps, p.1.data ≠ [] ∧ ∀ c ∈ p.1.data, isWordChar c = true) →
    (∀ p ∈ ps, ∀ c ∈ p.2.data, (c == '"') = false) →
    scanAllF kvTry fuel (renderAttrs ps)
      = ps.map (fun p => (p.1, (⟨'"' :: (p.2.data ++ ['"'])⟩ : String))) := by
  induction ps with
  | nil =>
    intro fuel _ _ _
    exact scanAllF_nil kvTry fuel
  | cons p ps ih =>
    intro fuel hf hks hvs
    have hk := hks p (List.mem_cons_self p ps)
    have hv := hvs p (List.mem_cons_self p ps)
    have hrend : renderAttrs (p :: ps)
        = p.1.data ++ '=' :: '"' :: (p.2.data ++ '"' ::
            (if ps.isEmpty then [] else ' ' :: renderAttrs ps)) := rfl
    rw [hrend] at hf ⊢
    obtain ⟨k0, kr, hk0⟩ : ∃ k0 kr, p.1.data = k0 :: kr := by
      rcases hq : p.1.data with _ | ⟨k0, kr⟩
      · exact absurd hq hk.1
      · exact ⟨k0, kr, rfl⟩
    obtain ⟨f, rfl⟩ : ∃ f, fuel = f + 1 := by
      cases fuel with
      | zero =>
        rw [hk0] at hf
        simp at hf
      | succ f => exact ⟨f, rfl⟩
    rw [hk0, List.cons_append, scanAllF, ← List.cons_append, ← hk0,
      kvTry_render hk.1 hk.2 hv]
    rw [List.map_cons]
    rcases hps : ps with _ | ⟨q, qs⟩
    · simp only [List.isEmpty_nil, if_pos]
      rw [scanAllF_nil]
      rfl
    · rw [← hps]
      have hne : ps.isEmpty = false := by rw [hps]; rfl
      rw [hne]
      simp only [Bool.false_eq_true, if_false]
      obtain ⟨f2, rfl⟩ : ∃ f2, f = f2 + 1 := by
        cases f with
        | zero =>
          rw [hk0] at hf
          simp [List.length_append] at hf
        | succ f2 => exact ⟨f2, rfl⟩
      rw [scanAllF, kvTry_space]
      rw [ih f2 (by
          rw [hne] at hf
          simp only [List.length_cons, List.length_append, Bool.false_eq_true,
            if_false] at hf ⊢
          omega)
        (fun q hq => hks q (List.mem_cons_of_mem p hq))
        (fun q hq => hvs q (List.mem_cons_of_mem p hq))]

theorem any_key_eq_false {β : Type} {tbl : List (String × β)} {k : String} :
    (tbl.any (fun e => e.1 == k)) = false ↔ k ∉ tbl.map Prod.fst := by
  rw [← Bool.not_eq_true, List.any_eq_true]
  simp [List.mem_map, beq_iff_eq]

theorem dict_fold_fresh (ps : List (String × String)) :
    ∀ acc : List (String × String),
    (∀ p ∈ ps, p.1 ∉ acc.map Prod.fst) →
    (ps.map Prod.fst).Nodup →
    ps.foldl (fun out kv => dictUpsert out kv.1 kv.2) acc = acc ++ ps := by
  induction ps with
  | nil =>
    intro acc _ _
    simp
  | cons p ps ih =>
    intro acc hdisj hnd
    rw [List.foldl_cons]
    have hfresh : p.1 ∉ acc.map Prod.fst := hdisj p (List.mem_cons_self p ps)
    have hup : dictUpsert acc p.1 p.2 = acc ++ [(p.1, p.2)] := by
      unfold dictUpsert
      rw [if_neg (by rw [any_key_eq_false.mpr hfresh]; simp)]
    rw [hup, ih (acc ++ [(p.1, p.2)]) ?h1 ?h2]
    · simp
    case h1 =>
      intro q hq
      rw [List.map_append, List.mem_append]
      rintro (h1 | h2)
      · exact hdisj q (List.mem_cons_of_mem p hq) h1
      · rw [List.map_cons, List.nodup_cons] at hnd
        simp only [List.map_cons, List.map_nil, List.mem_singleton] at h2
        exact hnd.1 (h2 ▸ List.mem_map_of_mem Prod.fst hq)
    case h2 =>
      rw [List.map_cons, List.nodup_cons] at hnd
      exact hnd.2

theorem pyDequote_quoted (v : List Char) :
    pyDequote ('"' :: (v ++ ['"'])) = v := by
  show (if (v ++ ['"']).getLast? = some '"' then (v ++ ['"']).dropLast
    else if (v ++ ['"']).isEmpty = true then [] else '"' :: (v ++ ['"'])) = v
  rw [List.getLast?_concat, if_pos rfl]
  exact List.dropLast_concat

theorem parse_header_kv_render (ps : List (String × String))
    (hks : ∀ p ∈ ps, p.1.data ≠ [] ∧ ∀ c ∈ p.1.data, isWordChar c = true)
    (hvs : ∀ p ∈ ps, ∀ c ∈ p.2.data, (c == '"') = false)
    (hnd : (ps.map Prod.fst).Nodup) :
    parse_header_kv ⟨renderAttrs ps⟩ = ps := by
  unfold parse_header_kv scanAll
  rw [data_mk, scan_kv_render ps _ (le_refl _) hks hvs]
  have hfold : ∀ (qs : List (String × String)) (acc : List (String × String)),
      (qs.map fun p => (p.1, (⟨'"' :: (p.2.data ++ ['"'])⟩ : String))).foldl
        (fun out kv => dictUpsert out kv.1 ⟨pyDequote kv.2.data⟩) acc
      = qs.foldl (fun out kv => dictUpsert out kv.1 kv.2) acc := by
    intro qs
    induction qs with
    | nil => intro acc; rfl
    | cons q qs ihq =>
      intro acc
      rw [List.map_cons, List.foldl_cons, List.foldl_cons]
      rw [show (⟨'"' :: (q.2.data ++ ['"'])⟩ : String).data
        = '"' :: (q.2.data ++ ['"']) from rfl]
      rw [pyDequote_quoted]
      rw [show (⟨q.2.data⟩ : String) = q.2 from rfl]
      exact ihq _
  rw [hfold, dict_fold_fresh ps [] (by simp) hnd]
  rfl

theorem headingMatch_render (tag : String) (ps : List (String × String))
    (ht1 : tag.data ≠ []) (ht2 : ∀ c ∈ tag.data, isWordChar c = true)
    (hks : ∀ p ∈ ps, p.1.data ≠ [] ∧ ∀ c ∈ p.1.data, isWordChar c = true) :
    headingMatch (mkHeadingLine tag ps) = some (tag, ⟨renderAttrs ps⟩) := by
  have hshape : mkHeadingLine tag ps
      = '[' :: (tag.data ++ ' ' :: (renderAttrs ps ++ [']'])) := by
    unfold mkHeadingLine
    simp [List.append_assoc]
  rw [hshape]
  unfold headingMatch
  have h1 : (tag.data ++ ' ' :: (renderAttrs ps ++ [']'])).takeWhile isWordChar
      = tag.data := by
    rw [List.takeWhile_append_of_pos ht2, List.takeWhile_cons,
      if_neg (by decide)]
    exact List.append_nil _
  have h2 : (tag.data ++ ' ' :: (renderAttrs ps ++ [']'])).dropWhile isWordChar
      = ' ' :: (renderAttrs ps ++ [']']) := by
    rw [List.dropWhile_append_of_pos ht2, List.dropWhile_cons,
      if_neg (by decide)]
  have h3 : (' ' :: (renderAttrs ps ++ [']'])).dropWhile pyIsSpace
      = renderAttrs ps ++ [']'] := by
    rw [List.dropWhile_cons, if_pos (by decide)]
    apply dropWhile_eq_self_of_head
    intro c hc
    rcases ps with _ | ⟨p, ps⟩
    · simp only [renderAttrs, List.nil_append] at hc
      injection hc with hc
      subst hc
      decide
    · have hk := hks p (List.mem_cons_self p ps)
      obtain ⟨k0, kr, hk0⟩ : ∃ k0 kr, p.1.data = k0 :: kr := by
        rcases hq : p.1.data with _ | ⟨k0, kr⟩
        · exact absurd hq hk.1
        · exact ⟨k0, kr, rfl⟩
      have : renderAttrs (p :: ps) ++ [']']
          = k0 :: (kr ++ '=' :: '"' :: (p.2.data ++ '"' ::
              (if ps.isEmpty then [] else ' ' :: renderAttrs ps)) ++ [']']) := by
        show (p.1.data ++ _) ++ [']'] = _
        rw [hk0]
        simp [List.append_assoc]
      rw [this] at hc
      injection hc with hc
      subst hc
      exact word_not_space (hk.2 k0 (hk0 ▸ List.mem_cons_self k0 kr))
  have h4 : (renderAttrs ps ++ [']']).reverse
      = ']' :: (renderAttrs ps).reverse := List.reverse_concat _ _
  simp only [h1, h2, h3, h4, isEmpty_false_of_ne ht1, Bool.false_eq_true,
    if_false, List.dropWhile_cons]
  rw [if_neg (by decide : ¬ (pyIsSpace ']' = true))]
  simp only [List.reverse_reverse]

theorem mkHeadingLine_cons (tag : String) (ps : List (String × String)) :
    mkHeadingLine tag ps = '[' :: (tag.data ++ ' ' :: renderAttrs ps ++ [']'])
    := by
  unfold mkHeadingLine
  simp [List.append_assoc]

theorem pyStripWs_heading (tag : String) (ps : List (String × String)) :
    pyStripWs (mkHeadingLine tag ps) = mkHeadingLine tag ps := by
  apply pyStripWs_eq_self
  · intro c hc
    rw [mkHeadingLine_cons] at hc
    injection hc with hc
    subst hc
    decide
  · intro c hc
    unfold mkHeadingLine at hc
    rw [List.getLast?_concat] at hc
    injection hc with hc
    subst hc
    decide

theorem heading_not_empty_semi (tag : String) (ps : List (String × String)) :
    ((mkHeadingLine tag ps).isEmpty
      || listStartsWith ";".data (mkHeadingLine tag ps)) = false := by
  rw [mkHeadingLine_cons]
  rw [show (";".data : List Char) = [';'] from rfl]
  rw [startsWith_false_of_head _ _ (by decide : ¬ ';' = '[')]
  rfl

theorem goodAttrValue_no_quote {v : String} (h : goodAttrValue v = true) :
    ∀ ch ∈ v.data, (ch == '"') = false := by
  intro ch hch
  have h2 := List.all_eq_true.mp h ch hch
  simp only [Bool.and_eq_true] at h2
  rcases hb : (ch == '"') with _ | _
  · rfl
  · rw [hb] at h2
    exact absurd h2.1.1 (by decide)

theorem key_ok (s v : String) (h1 : s.data ≠ [])
    (h2 : ∀ c ∈ s.data, isWordChar c = true) :
    (s, v).1.data ≠ [] ∧ ∀ c ∈ (s, v).1.data, isWordChar c = true :=
  ⟨h1, h2⟩

theorem tscnLine_heading (st : TokState) (tag : String)
    (ps : List (String × String))
    (ht1 : tag.data ≠ []) (ht2 : ∀ c ∈ tag.data, isWordChar c = true)
    (hks : ∀ p ∈ ps, p.1.data ≠ [] ∧ ∀ c ∈ p.1.data, isWordChar c = true)
    (hvs : ∀ p ∈ ps, ∀ c ∈ p.2.data, (c == '"') = false)
    (hnd : (ps.map Prod.fst).Nodup) :
    tscnLine st (mkHeadingLine tag ps)
      = (if tag = "ext_resource" then
           let st := tscnFlush st
           match dictGet? ps "id", dictGet? ps "path" with
           | some rid, some p =>
             if rid = "" ∨ p = "" then st
             else { st with ext := dictUpsert st.ext rid p }
           | _, _ => st
         else if tag = "node" then
           let st := tscnFlush st
           { st with curHdr := some ps, curProps := some [] }
         else if tag = "connection" then
           let st := tscnFlush st
           let sig := dictGetD ps "signal" ""
           let frm := dictGetD ps "from" ""
           let tov := dictGetD ps "to" ""
           let method := dictGetD ps "method" ""
           if sig ≠ "" ∧ frm ≠ "" ∧ tov ≠ "" ∧ method ≠ "" then
             { st with conns := st.conns ++ [⟨sig, frm, tov, method⟩] }
           else
             { st with warns := st.warns ++
                 ["Malformed connection heading: " ++ ⟨mkHeadingLine tag ps⟩] }
         else tscnFlush st) := by
  unfold tscnLine
  simp only [pyStripWs_heading]
  rw [if_neg (by rw [heading_not_empty_semi]; simp)]
  rw [headingMatch_render tag ps ht1 ht2 hks]
  simp only []
  rw [parse_header_kv_render ps hks hvs hnd]

theorem tscnLine_node (st : TokState) (ps : List (String × String))
    (hks : ∀ p ∈ ps, p.1.data ≠ [] ∧ ∀ c ∈ p.1.data, isWordChar c = true)
    (hvs : ∀ p ∈ ps, ∀ c ∈ p.2.data, (c == '"') = false)
    (hnd : (ps.map Prod.fst).Nodup) :
    tscnLine st (mkHeadingLine "node" ps)
      = { tscnFlush st with curHdr := some ps, curProps := some [] } := by
  rw [tscnLine_heading st "node" ps (by decide) (by decide) hks hvs hnd]
  rw [if_neg (by decide), if_pos rfl]

theorem tscnLine_conn_good (st : TokState) (c : ConnDesc) (m : String)
    (hm : c.method = some m) (hc : goodConn c = true) :
    tscnLine st (mkConnLine c)
      = { tscnFlush st with
          conns := (tscnFlush st).conns ++ [⟨c.sig, c.frm, c.tov, m⟩] } := by
  unfold goodConn at hc
  rw [hm] at hc
  simp only [Bool.and_eq_true, bne_iff_ne, ne_eq] at hc
  obtain ⟨⟨⟨⟨⟨⟨hg1, hn1⟩, hg2⟩, hn2⟩, hg3⟩, hn3⟩, hg4, hn4⟩ := hc
  have hattrs : connAttrs c
      = [("signal", c.sig), ("from", c.frm), ("to", c.tov), ("method", m)]
      := by
    unfold connAttrs
    rw [hm]
    rfl
  unfold mkConnLine
  rw [hattrs]
  rw [tscnLine_heading st "connection" _ (by decide) (by decide)
    (by
      intro p hp
      simp only [List.mem_cons, List.not_mem_nil, or_false] at hp
      rcases hp with rfl | rfl | rfl | rfl <;>
        exact key_ok _ _ (by decide) (by decide))
    (by
      intro p hp
      simp only [List.mem_cons, List.not_mem_nil, or_false] at hp
      rcases hp with rfl | rfl | rfl | rfl
      · exact goodAttrValue_no_quote hg1
      · exact goodAttrValue_no_quote hg2
      · exact goodAttrValue_no_quote hg3
      · exact goodAttrValue_no_quote hg4)
    (by
      rw [show ([("signal", c.sig), ("from", c.frm), ("to", c.tov),
        ("method", m)] : List (String × String)).map Prod.fst
        = ["signal", "from", "to", "method"] from rfl]
      decide)]
  rw [if_neg (by decide), if_neg (by decide), if_pos rfl]
  rw [if_pos ⟨hn1, hn2, hn3, hn4⟩]
  rfl

theorem tscnLine_conn_bad (st : TokState) (c : ConnDesc)
    (hm : c.method = none) (hc : goodConn c = true) :
    tscnLine st (mkConnLine c)
      = { tscnFlush st with
          warns := (tscnFlush st).warns ++
            ["Malformed connection heading: " ++ ⟨mkConnLine c⟩] } := by
  unfold goodConn at hc
  rw [hm] at hc
  simp only [Bool.and_eq_true, bne_iff_ne, ne_eq, and_true] at hc
  obtain ⟨⟨⟨⟨⟨hg1, hn1⟩, hg2⟩, hn2⟩, hg3⟩, hn3⟩ := hc
  have hattrs : connAttrs c
      = [("signal", c.sig), ("from", c.frm), ("to", c.tov)] := by
    unfold connAttrs
    rw [hm]
    simp
  have hline : mkConnLine c
      = mkHeadingLine "connection" [("signal", c.sig), ("from", c.frm),
          ("to", c.tov)] := by
    unfold mkConnLine
    rw [hattrs]
  rw [hline]
  rw [tscnLine_heading st "connection" _ (by decide) (by decide)
    (by
      intro p hp
      simp only [List.mem_cons, List.not_mem_nil, or_false] at hp
      rcases hp with rfl | rfl | rfl <;>
        exact key_ok _ _ (by decide) (by decide))
    (by
      intro p hp
      simp only [List.mem_cons, List.not_mem_nil, or_false] at hp
      rcases hp with rfl | rfl | rfl
      · exact goodAttrValue_no_quote hg1
      · exact goodAttrValue_no_quote hg2
      · exact goodAttrValue_no_quote hg3)
    (by
      rw [show ([("signal", c.sig), ("from", c.frm), ("to", c.tov)]
        : List (String × String)).map Prod.fst
        = ["signal", "from", "to"] from rfl]
      decide)]
  rw [if_neg (by decide), if_neg (by decide), if_pos rfl]
  rw [if_neg (by
    intro hcond
    exact hcond.2.2.2 rfl)]

theorem tscnLoop_nodes (names : List String) :
    ∀ (st : TokState) (h0 p0 : List (String × String)),
    (∀ nm ∈ names, goodAttrValue nm = true) →
    st.curHdr = some h0 → st.curProps = some p0 →
    tscnFlush (tscnLoop (names.map mkNodeLine) st)
      = ⟨st.ext,
         st.nodes ++ (h0, p0, st.order) :: childNodesFrom names (st.order + 1),
         st.conns, none, none, st.order + names.length + 1, st.warns⟩ := by
  induction names with
  | nil =>
    intro st h0 p0 _ hh hp
    unfold tscnLoop
    simp only [List.map_nil, List.foldl_nil]
    unfold tscnFlush
    rw [hh, hp]
    rfl
  | cons nm rest ih =>
    intro st h0 p0 hgood hh hp
    unfold tscnLoop
    rw [List.map_cons, List.foldl_cons]
    rw [mkNodeLine, tscnLine_node st [("name", nm), ("parent", ".")]
      (by
        intro p hp2
        simp only [List.mem_cons, List.not_mem_nil, or_false] at hp2
        rcases hp2 with rfl | rfl <;> exact key_ok _ _ (by decide) (by decide))
      (by
        intro p hp2
        simp only [List.mem_cons, List.not_mem_nil, or_false] at hp2
        rcases hp2 with rfl | rfl
        · exact goodAttrValue_no_quote (hgood nm (List.mem_cons_self nm rest))
        · decide)
      (by
        rw [show ([("name", nm), ("parent", ".")]
          : List (String × String)).map Prod.fst = ["name", "parent"] from rfl]
        decide)]
    have hflush : tscnFlush st
        = ⟨st.ext, st.nodes ++ [(h0, p0, st.order)], st.conns, none, none,
           st.order + 1, st.warns⟩ := by
      unfold tscnFlush
      rw [hh, hp]
    rw [hflush]
    have hih := ih ⟨st.ext, st.nodes ++ [(h0, p0, st.order)], st.conns,
        some [("name", nm), ("parent", ".")], some [], st.order + 1, st.warns⟩
      [("name", nm), ("parent", ".")] []
      (fun q hq => hgood q (List.mem_cons_of_mem nm hq)) rfl rfl
    unfold tscnLoop at hih
    rw [show ({ (⟨st.ext, st.nodes ++ [(h0, p0, st.order)], st.conns, none,
        none, st.order + 1, st.warns⟩ : TokState) with
        curHdr := some [("name", nm), ("parent", ".")],
        curProps := some ([] : List (String × String)) } : TokState)
      = ⟨st.ext, st.nodes ++ [(h0, p0, st.order)], st.conns,
         some [("name", nm), ("parent", ".")], some [], st.order + 1,
         st.warns⟩ from rfl]
    rw [hih]
    simp only [childNodesFrom, TokState.mk.injEq, List.append_assoc,
      List.cons_append, List.nil_append, List.length_cons]
    refine ⟨trivial, trivial, trivial, trivial, trivial, ?_, trivial⟩
    omega

theorem tscnLoop_conns (cs : List ConnDesc) :
    ∀ st : TokState,
    (∀ c ∈ cs, goodConn c = true) →
    st.curHdr = none → st.curProps = none →
    tscnLoop (cs.map mkConnLine) st
      = ⟨st.ext, st.nodes, st.conns ++ cs.filterMap connRecord, none, none,
         st.order, st.warns ++ cs.filterMap connWarning⟩ := by
  induction cs with
  | nil =>
    intro st _ hh hp
    unfold tscnLoop
    simp only [List.map_nil, List.foldl_nil, List.filterMap_nil,
      List.append_nil]
    rw [show st = ⟨st.ext, st.nodes, st.conns, st.curHdr, st.curProps,
      st.order, st.warns⟩ from rfl, hh, hp]
  | cons c cs ih =>
    intro st hgood hh hp
    have hflush : tscnFlush st = st := by
      unfold tscnFlush
      rw [hh, hp]
      rw [show st = ⟨st.ext, st.nodes, st.conns, st.curHdr, st.curProps,
        st.order, st.warns⟩ from rfl, hh, hp]
    unfold tscnLoop
    rw [List.map_cons, List.foldl_cons]
    have hc := hgood c (List.mem_cons_self c cs)
    rcases hm : c.method with _ | m
    · rw [tscnLine_conn_bad st c hm hc, hflush]
      have hih := ih { st with
          warns := st.warns ++
            ["Malformed connection heading: " ++ ⟨mkConnLine c⟩] }
        (fun q hq => hgood q (List.mem_cons_of_mem c hq)) hh hp
      unfold tscnLoop at hih
      rw [hih]
      simp only [TokState.mk.injEq, List.filterMap_cons]
      rw [show connRecord c = none from (by unfold connRecord; rw [hm])]
      rw [show connWarning c
        = some ("Malformed connection heading: " ++ ⟨mkConnLine c⟩) from
        (by unfold connWarning; rw [hm])]
      simp [List.append_assoc]
    · rw [tscnLine_conn_good st c m hm hc, hflush]
      have hih := ih { st with
          conns := st.conns ++ [⟨c.sig, c.frm, c.tov, m⟩] }
        (fun q hq => hgood q (List.mem_cons_of_mem c hq)) hh hp
      unfold tscnLoop at hih
      rw [hih]
      simp only [TokState.mk.injEq, List.filterMap_cons]
      rw [show connRecord c = some ⟨c.sig, c.frm, c.tov, m⟩ from
        (by unfold connRecord; rw [hm])]
      rw [show connWarning c = none from (by unfold connWarning; rw [hm])]
      simp [List.append_assoc]

theorem data_append (a b : String) : (a ++ b).data = a.data ++ b.data := rfl

theorem childKey_ne_root (R nm : String) :
    ((R ++ "/" ++ nm == R) : Bool) = false := by
  rcases hb : ((R ++ "/" ++ nm == R) : Bool) with _ | _
  · rfl
  · exfalso
    rw [beq_iff_eq] at hb
    have hd := congrArg String.data hb
    rw [data_append, data_append] at hd
    have hlen := congrArg List.length hd
    simp only [List.length_append] at hlen
    simp at hlen
    omega

theorem root_ne_childKey (R nm : String) :
    ((R == R ++ "/" ++ nm) : Bool) = false := by
  rcases hb : ((R == R ++ "/" ++ nm) : Bool) with _ | _
  · rfl
  · exfalso
    rw [beq_iff_eq] at hb
    have hd := congrArg String.data hb
    rw [data_append, data_append] at hd
    have hlen := congrArg List.length hd
    simp only [List.length_append] at hlen
    simp at hlen
    omega

theorem childKey_inj {R a b : String} (h : R ++ "/" ++ a = R ++ "/" ++ b) :
    a = b := by
  have hd := congrArg String.data h
  rw [data_append, data_append, data_append, data_append] at hd
  have hdata := List.append_cancel_left hd
  calc a = ⟨a.data⟩ := rfl
    _ = ⟨b.data⟩ := by rw [hdata]
    _ = b := rfl

theorem stage2step_child (R : String) (bd pr : PPath)
    (ext : List (String × String)) (tbl : List (String × NodeRec))
    (nm : String) (k : Nat) (hk : k ≠ 0)
    (hfresh : tbl.any (fun e => e.1 == R ++ "/" ++ nm) = false) :
    stage2step R bd pr ext tbl ([("name", nm), ("parent", ".")], [], k)
      = tbl ++ [(R ++ "/" ++ nm, ⟨nm, "Node", some R, k, none, none⟩)] := by
  have h1 : stage2step R bd pr ext tbl ([("name", nm), ("parent", ".")], [], k)
      = nodeUpsert tbl
          (if k = 0 then ((none : Option String), R)
           else (some R, R ++ "/" ++ nm)).2
          ⟨nm, "Node",
           (if k = 0 then ((none : Option String), R)
            else (some R, R ++ "/" ++ nm)).1, k, none, none⟩ := rfl
  rw [h1, if_neg hk]
  unfold nodeUpsert
  rw [hfresh]
  rfl

theorem stage2step_root (R : String) (bd pr : PPath)
    (ext : List (String × String)) (rec0 : NodeRec) :
    stage2step R bd pr ext [(R, rec0)] ([("name", R)], [], 0)
      = [(R, ⟨R, "Node", none, 0, none, none⟩)] := by
  have h1 : stage2step R bd pr ext [(R, rec0)] ([("name", R)], [], 0)
      = nodeUpsert [(R, rec0)] R ⟨R, "Node", none, 0, none, none⟩ := rfl
  rw [h1]
  unfold nodeUpsert
  simp

theorem stage2_childFold (R : String) (bd pr : PPath)
    (ext : List (String × String)) (names : List String) :
    ∀ (k : Nat) (pre : List (String × NodeRec)), k ≠ 0 →
    names.Nodup →
    (∀ nm ∈ names, pre.any (fun e => e.1 == R ++ "/" ++ nm) = false) →
    (childNodesFrom names k).foldl (stage2step R bd pr ext) pre
      = pre ++ childRecs R names k := by
  induction names with
  | nil =>
    intro k pre _ _ _
    simp [childNodesFrom, childRecs]
  | cons nm rest ih =>
    intro k pre hk hnd hfresh
    rw [show childNodesFrom (nm :: rest) k
      = ([("name", nm), ("parent", ".")], [], k) :: childNodesFrom rest (k + 1)
      from rfl]
    rw [List.foldl_cons]
    rw [stage2step_child R bd pr ext pre nm k hk
      (hfresh nm (List.mem_cons_self nm rest))]
    rw [ih (k + 1) _ (Nat.succ_ne_zero k) (List.Nodup.of_cons hnd) ?_]
    · rw [show childRecs R (nm :: rest) k
        = (R ++ "/" ++ nm, ⟨nm, "Node", some R, k, none, none⟩)
          :: childRecs R rest (k + 1) from rfl]
      simp [List.append_assoc]
    · intro q hq
      rw [List.any_append]
      rw [hfresh q (List.mem_cons_of_mem nm hq)]
      rw [Bool.false_or]
      have hne : (R ++ "/" ++ nm == R ++ "/" ++ q) = false := by
        rcases hb : ((R ++ "/" ++ nm == R ++ "/" ++ q) : Bool) with _ | _
        · rfl
        · exfalso
          rw [beq_iff_eq] at hb
          have := childKey_inj hb
          rw [List.nodup_cons] at hnd
          exact hnd.1 (this ▸ hq)
      simp [hne]

theorem childRecs_keys (R : String) (names : List String) :
    ∀ k, ∀ e ∈ childRecs R names k, ∃ nm ∈ names, e.1 = R ++ "/" ++ nm := by
  induction names with
  | nil => intro k e he; simp [childRecs] at he
  | cons nm rest ih =>
    intro k e he
    rw [show childRecs R (nm :: rest) k
      = (R ++ "/" ++ nm, ⟨nm, "Node", some R, k, none, none⟩)
        :: childRecs R rest (k + 1) from rfl] at he
    rcases List.mem_cons.mp he with he2 | he2
    · exact ⟨nm, List.mem_cons_self nm rest, by rw [he2]⟩
    · obtain ⟨q, hq, hqe⟩ := ih (k + 1) e he2
      exact ⟨q, List.mem_cons_of_mem nm hq, hqe⟩

theorem filter_childRecs_keep (R : String) (names : List String)
    (hR : (R == "") = false) :
    ∀ k, (childRecs R names k).filter
        (fun e => !(e.1 == R) &&
          !((e.2.parent_full.getD "") == "") && (e.2.parent_full == some R))
      = childRecs R names k := by
  induction names with
  | nil => intro k; rfl
  | cons nm rest ih =>
    intro k
    rw [show childRecs R (nm :: rest) k
      = (R ++ "/" ++ nm, ⟨nm, "Node", some R, k, none, none⟩)
        :: childRecs R rest (k + 1) from rfl]
    rw [List.filter_cons]
    rw [show ((!((R ++ "/" ++ nm,
        (⟨nm, "Node", some R, k, none, none⟩ : NodeRec)).1 == R) &&
        !(((R ++ "/" ++ nm,
        (⟨nm, "Node", some R, k, none, none⟩ : NodeRec)).2.parent_full.getD
          "") == "")) &&
        ((R ++ "/" ++ nm,
        (⟨nm, "Node", some R, k, none, none⟩ : NodeRec)).2.parent_full
          == some R)) = true by
      rw [show (R ++ "/" ++ nm,
        (⟨nm, "Node", some R, k, none, none⟩ : NodeRec)).1 = R ++ "/" ++ nm
        from rfl]
      rw [show ((R ++ "/" ++ nm,
        (⟨nm, "Node", some R, k, none, none⟩ : NodeRec)).2.parent_full.getD
          "") = R from rfl]
      rw [childKey_ne_root R nm, hR]
      simp]
    rw [if_pos rfl, ih (k + 1)]

theorem filter_childRecs_drop (R : String) (names : List String)
    (q : String) (hq : (R == q) = false) :
    ∀ k, (childRecs R names k).filter
        (fun e => !(e.1 == R) &&
          !((e.2.parent_full.getD "") == "") && (e.2.parent_full == some q))
      = [] := by
  induction names with
  | nil => intro k; rfl
  | cons nm rest ih =>
    intro k
    rw [show childRecs R (nm :: rest) k
      = (R ++ "/" ++ nm, ⟨nm, "Node", some R, k, none, none⟩)
        :: childRecs R rest (k + 1) from rfl]
    rw [List.filter_cons]
    rw [show ((!((R ++ "/" ++ nm,
        (⟨nm, "Node", some R, k, none, none⟩ : NodeRec)).1 == R) &&
        !(((R ++ "/" ++ nm,
        (⟨nm, "Node", some R, k, none, none⟩ : NodeRec)).2.parent_full.getD
          "") == "")) &&
        ((R ++ "/" ++ nm,
        (⟨nm, "Node", some R, k, none, none⟩ : NodeRec)).2.parent_full
          == some q)) = false by
      rw [show ((R ++ "/" ++ nm,
        (⟨nm, "Node", some R, k, none, none⟩ : NodeRec)).2.parent_full
          == some q) = (R == q) from rfl]
      rw [hq]
      simp]
    rw [if_neg (by decide)]
    exact ih (k + 1)

theorem childEntries_run (R : String) (a : NodeRec) (names : List String)
    (hR : (R == "") = false) (k : Nat) :
    childEntries ((R, a) :: childRecs R names k) R R
      = childRecs R names k := by
  unfold childEntries
  rw [List.filter_cons]
  rw [show ((!((R, a).1 == R) &&
    !(((R, a).2.parent_full.getD "") == "")) &&
      ((R, a).2.parent_full == some R)) = false by simp]
  rw [if_neg (by decide)]
  exact filter_childRecs_keep R names hR k

theorem childEntries_leaf (R : String) (a : NodeRec) (names : List String)
    (q : String) (hq : (R == q) = false) (k : Nat) :
    childEntries ((R, a) :: childRecs R names k) R q = [] := by
  unfold childEntries
  rw [List.filter_cons]
  rw [show ((!((R, a).1 == R) &&
    !(((R, a).2.parent_full.getD "") == "")) &&
      ((R, a).2.parent_full == some q)) = false by simp]
  rw [if_neg (by decide)]
  exact filter_childRecs_drop R names q hq k

theorem childRecs_order_ge (R : String) (rest : List String) :
    ∀ j, ∀ e2 ∈ childRecs R rest j, j ≤ e2.2.order := by
  induction rest with
  | nil => intro j e2 he2; simp [childRecs] at he2
  | cons q qs ihq =>
    intro j e2 he2
    rw [show childRecs R (q :: qs) j
      = (R ++ "/" ++ q, ⟨q, "Node", some R, j, none, none⟩)
        :: childRecs R qs (j + 1) from rfl] at he2
    rcases List.mem_cons.mp he2 with he3 | he3
    · rw [he3]
    · exact Nat.le_of_succ_le (ihq (j + 1) e2 he3)

theorem childRecs_orderSorted (R : String) (names : List String) :
    ∀ k, (childRecs R names k).Pairwise
      (fun a b => decide (a.2.order ≤ b.2.order) = true) := by
  induction names with
  | nil => intro k; simp [childRecs]
  | cons nm rest ih =>
    intro k
    rw [show childRecs R (nm :: rest) k
      = (R ++ "/" ++ nm, ⟨nm, "Node", some R, k, none, none⟩)
        :: childRecs R rest (k + 1) from rfl]
    rw [List.pairwise_cons]
    refine ⟨?_, ih (k + 1)⟩
    intro e he
    have := childRecs_order_ge R rest (k + 1) e he
    simp only [decide_eq_true_eq]
    omega

theorem buildTree_leaf (tbl : List (String × NodeRec)) (R : String)
    (fuel : Nat) (key : String) (n : NodeRec)
    (h : childEntries tbl R key = []) :
    buildTree tbl R fuel key n
      = .mk n.name n.type_name n.parent_full n.order n.script_path
          n.instance_path [] := by
  cases fuel with
  | zero => rfl
  | succ m =>
    rw [show buildTree tbl R (m + 1) key n
      = .mk n.name n.type_name n.parent_full n.order n.script_path
          n.instance_path
          ((sortByOrder (childEntries tbl R key)).map
            (fun e => buildTree tbl R m e.1 e.2)) from rfl]
    rw [h]
    rfl

theorem childRecs_kidsMap (R : String) (a : NodeRec)
    (names : List String) (fuel : Nat) :
    ∀ k j, (childRecs R names k).map
        (fun e => buildTree ((R, a) :: childRecs R names j) R fuel e.1 e.2)
      = (childRecs R names k).map
        (fun e => SceneNode.mk e.2.name e.2.type_name e.2.parent_full
          e.2.order e.2.script_path e.2.instance_path []) := by
  intro k j
  apply List.map_congr_left
  intro e he
  obtain ⟨nm, _, hkey⟩ := childRecs_keys R names k e he
  exact buildTree_leaf _ R fuel e.1 e.2
    (hkey ▸ childEntries_leaf R a names (R ++ "/" ++ nm)
      (root_ne_childKey R nm) j)

theorem buildTree_succ (tbl : List (String × NodeRec)) (R : String) (m : Nat)
    (key : String) (n : NodeRec) :
    buildTree tbl R (m + 1) key n
      = .mk n.name n.type_name n.parent_full n.order n.script_path
          n.instance_path
          ((sortByOrder (childEntries tbl R key)).map
            (fun e => buildTree tbl R m e.1 e.2)) := rfl

theorem childRecs_names (R : String) (names : List String) :
    ∀ k, (childRecs R names k).map (fun e => e.2.name) = names := by
  induction names with
  | nil => intro k; rfl
  | cons nm rest ih =>
    intro k
    rw [show childRecs R (nm :: rest) k
      = (R ++ "/" ++ nm, ⟨nm, "Node", some R, k, none, none⟩)
        :: childRecs R rest (k + 1) from rfl]
    rw [List.map_cons, ih (k + 1)]

theorem childRecs_orders (R : String) (names : List String) :
    ∀ k, (childRecs R names k).map (fun e => e.2.order)
      = List.range' k names.length := by
  induction names with
  | nil => intro k; rfl
  | cons nm rest ih =>
    intro k
    rw [show childRecs R (nm :: rest) k
      = (R ++ "/" ++ nm, ⟨nm, "Node", some R, k, none, none⟩)
        :: childRecs R rest (k + 1) from rfl]
    rw [List.map_cons, ih (k + 1)]
    rfl

theorem connRecord_as_filter (cs : List ConnDesc) :
    cs.filterMap connRecord
      = (cs.filter (fun c => c.method.isSome)).map
          (fun c => (⟨c.sig, c.frm, c.tov, c.method.getD ""⟩
            : SceneConnection)) := by
  induction cs with
  | nil => rfl
  | cons c cs ih =>
    rw [List.filterMap_cons, List.filter_cons]
    rcases hm : c.method with _ | m
    · rw [show connRecord c = none from by unfold connRecord; rw [hm]]
      rw [if_neg (by decide)]
      exact ih
    · rw [show connRecord c = some ⟨c.sig, c.frm, c.tov, m⟩ from by
        unfold connRecord; rw [hm]]
      rw [if_pos (show ((some m).isSome = true) from rfl)]
      rw [List.map_cons, ih]
      simp [hm]

theorem connWarning_as_filter (cs : List ConnDesc) :
    cs.filterMap connWarning
      = (cs.filter (fun c => c.method.isNone)).map
          (fun c => "Malformed connection heading: "
            ++ (⟨mkConnLine c⟩ : String)) := by
  induction cs with
  | nil => rfl
  | cons c cs ih =>
    rw [List.filterMap_cons, List.filter_cons]
    rcases hm : c.method with _ | m
    · rw [show connWarning c
        = some ("Malformed connection heading: " ++ ⟨mkConnLine c⟩) from by
        unfold connWarning; rw [hm]]
      rw [if_pos (show ((none : Option String).isNone = true) from rfl)]
      rw [List.map_cons, ih]
    · rw [show connWarning c = none from by unfold connWarning; rw [hm]]
      rw [if_neg (by simp)]
      exact ih

theorem tscnLine_conn_missing (st : TokState) (ps : List (String × String))
    (hks : ∀ p ∈ ps, p.1.data ≠ [] ∧ ∀ c ∈ p.1.data, isWordChar c = true)
    (hvs : ∀ p ∈ ps, ∀ c ∈ p.2.data, (c == '"') = false)
    (hnd : (ps.map Prod.fst).Nodup)
    (hmiss : dictGetD ps "signal" "" = "" ∨ dictGetD ps "from" "" = ""
      ∨ dictGetD ps "to" "" = "" ∨ dictGetD ps "method" "" = "") :
    tscnLine st (mkHeadingLine "connection" ps)
      = { tscnFlush st with
          warns := (tscnFlush st).warns
            ++ ["Malformed connection heading: "
                ++ (⟨mkHeadingLine "connection" ps⟩ : String)] } := by
  rw [tscnLine_heading st "connection" ps (by decide) (by decide) hks hvs hnd]
  rw [if_neg (by decide), if_neg (by decide), if_pos rfl]
  dsimp only
  rw [if_neg (by
    rintro ⟨h1, h2, h3, h4⟩
    rcases hmiss with h | h | h | h
    exacts [h1 h, h2 h, h3 h, h4 h])]

theorem deco_shape {d : List Char} (h1 : listStartsWith "@export".data
    (pyStripWs (pyRStrip d)) = true) :
    ((pyStripWs (pyRStrip d)).isEmpty
      || listStartsWith "#".data (pyStripWs (pyRStrip d))) = false := by
  obtain ⟨t, ht⟩ := eq_of_startsWith h1
  rw [ht]
  rw [show ("@export".data ++ t : List Char)
    = '@' :: ("export".data ++ t) from rfl]
  rw [show ("#".data : List Char) = '#' :: [] from rfl]
  rw [startsWith_false_of_head [] ("export".data ++ t) (by decide)]
  rfl

theorem gdExportLine_deco (ex : List ExportedVar) (pend : List String)
    (d : List Char) (hd : isDecoLine d = true) :
    gdExportLine (ex, pend) d
      = some (ex, pend ++ [⟨pyStripWs (pyRStrip d)⟩]) := by
  unfold isDecoLine at hd
  simp only [Bool.and_eq_true, Bool.not_eq_true'] at hd
  obtain ⟨h1, h2⟩ := hd
  unfold gdExportLine
  dsimp only
  rw [deco_shape h1]
  rw [if_neg (by exact fun hc => absurd hc (by decide))]
  rw [if_pos h1]
  rw [h2]
  rw [if_neg (by exact fun hc => absurd hc (by decide))]

theorem gdExportLine_neutral (ex : List ExportedVar) (pend : List String)
    (t : List Char) (ht : isNeutralLine t = true) :
    ∃ pend2, gdExportLine (ex, pend) t = some (ex, pend2) := by
  unfold isNeutralLine at ht
  rw [Bool.or_eq_true] at ht
  unfold gdExportLine
  dsimp only
  rcases ht with ht | ht
  · rw [ht]
    exact ⟨pend, by rw [if_pos rfl]⟩
  · rw [Bool.and_eq_true, Bool.not_eq_true'] at ht
    obtain ⟨h1, h2⟩ := ht
    rw [Option.isNone_iff_eq_none] at h2
    by_cases hb : ((pyStripWs (pyRStrip t)).isEmpty
        || listStartsWith "#".data (pyStripWs (pyRStrip t))) = true
    · rw [if_pos hb]
      exact ⟨pend, rfl⟩
    · rw [if_neg hb]
      rw [h1]
      rw [if_neg (by exact fun hc => absurd hc (by decide))]
      by_cases hp : pend.isEmpty = true
      · rw [if_pos hp]
        exact ⟨pend, rfl⟩
      · rw [if_neg hp]
        rw [h2]
        by_cases hlen : pend.length > 8
        · rw [if_pos hlen]
          exact ⟨pend.drop (pend.length - 2), rfl⟩
        · rw [if_neg hlen]
          exact ⟨pend, rfl⟩

theorem gdExportLine_var (ex : List ExportedVar) (pend : List String)
    (v : List Char) (g : String × Option String × Option String)
    (hv : isPlainVarLine v = true)
    (hm : varDeclMatch (pyRStrip v) = some g) (hp : pend ≠ []) :
    gdExportLine (ex, pend) v
      = some (ex ++ [⟨pend, g.1, stripGroup g.2.1, stripGroup g.2.2⟩],
          []) := by
  unfold isPlainVarLine at hv
  simp only [Bool.and_eq_true, Bool.not_eq_true'] at hv
  obtain ⟨⟨hv1, hv2⟩, hv3⟩ := hv
  unfold gdExportLine
  dsimp only
  rw [hv1, hv2]
  rw [if_neg (by exact fun hc => absurd hc (by decide))]
  rw [hv3]
  rw [if_neg (by exact fun hc => absurd hc (by decide))]
  rw [if_neg (by
    rw [isEmpty_false_of_ne hp]
    exact fun hc => absurd hc (by decide))]
  rw [hm]
  dsimp only
  rw [if_neg (by decide)]

theorem foldlM_append_opt {σ α : Type} (f : σ → α → Option σ)
    (l1 l2 : List α) :
    ∀ b : σ, (l1 ++ l2).foldlM f b
      = (l1.foldlM f b).bind (fun b2 => l2.foldlM f b2) := by
  induction l1 with
  | nil => intro b; rfl
  | cons a l1 ih =>
    intro b
    rw [List.cons_append, List.foldlM_cons, List.foldlM_cons]
    rcases hf : f b a with _ | b1
    · rfl
    · exact ih b1

theorem gd_decoFold (decos : List (List Char))
    (hd : ∀ d ∈ decos, isDecoLine d = true) :
    ∀ (ex : List ExportedVar) (pend : List String),
    decos.foldlM gdExportLine ((ex, pend) : List ExportedVar × List String)
      = some (ex, pend ++ decos.map
          (fun d => (⟨pyStripWs (pyRStrip d)⟩ : String))) := by
  induction decos with
  | nil =>
    intro ex pend
    simp only [List.map_nil, List.append_nil]
    rfl
  | cons d rest ih =>
    intro ex pend
    rw [List.foldlM_cons]
    rw [gdExportLine_deco ex pend d (hd d (List.mem_cons_self d rest))]
    rw [Option.bind_eq_bind, Option.some_bind]
    rw [ih (fun q hq => hd q (List.mem_cons_of_mem d hq)) ex _]
    simp [List.append_assoc]

theorem gd_neutralFold (tails : List (List Char))
    (ht : ∀ t ∈ tails, isNeutralLine t = true) :
    ∀ (ex : List ExportedVar) (pend : List String),
    ∃ pend2, tails.foldlM gdExportLine
        ((ex, pend) : List ExportedVar × List String)
      = some (ex, pend2) := by
  induction tails with
  | nil => intro ex pend; exact ⟨pend, rfl⟩
  | cons t rest ih =>
    intro ex pend
    obtain ⟨p1, hp1⟩ := gdExportLine_neutral ex pend t
      (ht t (List.mem_cons_self t rest))
    obtain ⟨p2, hp2⟩ := ih (fun q hq => ht q (List.mem_cons_of_mem t hq))
      ex p1
    refine ⟨p2, ?_⟩
    rw [List.foldlM_cons, hp1, Option.bind_eq_bind, Option.some_bind, hp2]

/-! ## Claim theorems -/

/-- C3 (amended): normalize_res_like_path applied twice agrees with one
application for every raw input whose one-pass output is stable under the
strip chain of line 90 (whitespace, then double quotes, then single quotes,
from both ends); in particular every already-canonical output free of edge
whitespace and edge quote characters is returned unchanged.  The base
directory is assumed well formed (components of a resolved pathlib path).
Idempotence fails in general because the strip chain can expose a quote or
whitespace character at an end of the output; see the counterexample. -/
theorem claim_C3 (raw : String) (b r : PPath) (hb : okPath b = true)
    (hst : pyStrip3 (normalize_res_like_path raw b r).data
         = (normalize_res_like_path raw b r).data) :
    normalize_res_like_path (normalize_res_like_path raw b r) b r
      = normalize_res_like_path raw b r := by
  by_cases h0 : pyStrip3 raw.data = []
  · have hy : normalize_res_like_path raw b r = ⟨[]⟩ := by
      simp only [normalize_res_like_path]
      rw [if_pos h0, h0]
    rw [hy]
    rfl
  · by_cases h1 : listStartsWith "uid://".data (pyStrip3 raw.data) = true
    · have hy : normalize_res_like_path raw b r = ⟨pyStrip3 raw.data⟩ := by
        simp only [normalize_res_like_path]
        rw [if_neg h0, if_pos h1]
      rw [hy] at hst ⊢
      rw [data_mk] at hst
      exact normalize_uid _ b r hst h1
    · by_cases h2 : listStartsWith "res://".data (pyStrip3 raw.data) = true
      · obtain ⟨t0, ht0⟩ := eq_of_startsWith h2
        by_cases h3 : ((pyStrip3 raw.data).drop 6).dropWhile
            (fun c => c == '/') = []
        · have hy : normalize_res_like_path raw b r = "res://" := by
            simp only [normalize_res_like_path]
            rw [if_neg h0, if_neg h1, if_pos h2, if_pos h3]
          rw [hy]
          rfl
        · have hy : normalize_res_like_path raw b r
              = ⟨"res:///".data ++ ((pyStrip3 raw.data).drop 6).dropWhile
                  (fun c => c == '/')⟩ := by
            simp only [normalize_res_like_path]
            rw [if_neg h0, if_neg h1, if_pos h2, if_neg h3]
          have hhd : ∀ c, (((pyStrip3 raw.data).drop 6).dropWhile
              (fun c => c == '/')).head? = some c → ¬ c = '/' := by
            intro c hc
            cases hq : ((pyStrip3 raw.data).drop 6).dropWhile
                (fun c => c == '/') with
            | nil => exact absurd hq h3
            | cons a t =>
              rw [hq] at hc
              injection hc with ha
              subst ha
              have := dropWhile_head_false hq
              simp only [beq_iff_eq] at this
              intro hcc
              rw [hcc] at this
              simp at this
          have hform : (⟨"res:///".data ++ ((pyStrip3 raw.data).drop 6).dropWhile
              (fun c => c == '/')⟩ : String)
              = ⟨'r' :: 'e' :: 's' :: ':' :: '/' :: '/' :: '/' ::
                  ((pyStrip3 raw.data).drop 6).dropWhile (fun c => c == '/')⟩ := by
            apply String.ext
            rfl
          rw [hy] at hst ⊢
          rw [hform] at hst ⊢
          rw [data_mk] at hst
          exact normalize_res_form _ b r h3 hhd hst
      · rcases hres : to_res_path r (resolvePath (joinRel b (pyStrip3 raw.data)))
          with _ | out
        · have hy : normalize_res_like_path raw b r = ⟨pyStrip3 raw.data⟩ :=
            normalize_fallback raw b r h0 h1 h2 hres
          rw [hy] at hst ⊢
          rw [data_mk] at hst
          have happ := normalize_fallback (⟨pyStrip3 raw.data⟩ : String) b r
            (by rw [data_mk, hst]; exact h0)
            (by rw [data_mk, hst]; exact h1)
            (by rw [data_mk, hst]; exact h2)
            (by rw [data_mk, hst]; exact hres)
          rw [happ, data_mk, hst]
        · have hy : normalize_res_like_path raw b r = out := by
            simp only [normalize_res_like_path]
            rw [if_neg h0, if_neg h1, if_neg h2, hres]
          have hok := resolvePath_joinRel_ok hb (pyStrip3 raw.data)
          rcases to_res_path_some_shape hok hres with hsh | ⟨tl, htl, hhd, hsh⟩
          · rw [hy, hsh]
            rfl
          · rw [hy, hsh] at hst ⊢
            rw [data_mk] at hst
            exact normalize_res_form tl b r htl hhd hst

/-- C3 counterexample: normalizing res://x followed by a space and a stray
double quote yields a result with a trailing space, and a second
normalization strips that space, so normalizing twice differs from
normalizing once. -/
theorem claim_C3_counterexample :
    normalize_res_like_path
        (normalize_res_like_path "res://x \"" ⟨["proj"]⟩ ⟨["proj"]⟩)
        ⟨["proj"]⟩ ⟨["proj"]⟩
      ≠ normalize_res_like_path "res://x \"" ⟨["proj"]⟩ ⟨["proj"]⟩ := by
  decide

/-- C3 witness: a canonical project-relative input satisfies the stability
hypothesis and is normalized idempotently. -/
theorem claim_C3_witness :
    okPath ⟨["proj"]⟩ = true ∧
    pyStrip3 (normalize_res_like_path "res://a/b.tscn" ⟨["proj"]⟩ ⟨["proj"]⟩).data
      = (normalize_res_like_path "res://a/b.tscn" ⟨["proj"]⟩ ⟨["proj"]⟩).data ∧
    normalize_res_like_path
        (normalize_res_like_path "res://a/b.tscn" ⟨["proj"]⟩ ⟨["proj"]⟩)
        ⟨["proj"]⟩ ⟨["proj"]⟩
      = normalize_res_like_path "res://a/b.tscn" ⟨["proj"]⟩ ⟨["proj"]⟩ :=
  ⟨by decide, by decide,
    claim_C3 "res://a/b.tscn" ⟨["proj"]⟩ ⟨["proj"]⟩ (by decide) (by decide)⟩

/-- C9 (amended): when the stripped raw reference is nonempty, carries
neither the uid nor the res prefix, and resolves to a path outside the
project root (to_res_path raises, modelled none), normalize_res_like_path
returns the stripped raw string verbatim, and that string is nonempty.  The
original claim fails only in saying the un-stripped raw string is returned:
surrounding whitespace and quote characters are removed first (see the
counterexample). -/
theorem claim_C9 (raw : String) (b r : PPath)
    (h0 : pyStrip3 raw.data ≠ [])
    (h1 : ¬ listStartsWith "uid://".data (pyStrip3 raw.data) = true)
    (h2 : ¬ listStartsWith "res://".data (pyStrip3 raw.data) = true)
    (h3 : to_res_path r (resolvePath (joinRel b (pyStrip3 raw.data))) = none) :
    normalize_res_like_path raw b r = ⟨pyStrip3 raw.data⟩ ∧
    (⟨pyStrip3 raw.data⟩ : String) ≠ "" := by
  refine ⟨normalize_fallback raw b r h0 h1 h2 h3, ?_⟩
  intro h
  exact h0 (by simpa [String.ext_iff] using h)

/-- C9 counterexample: a quoted relative reference that escapes the project
root is returned with its quotes stripped, not as the original raw string
verbatim. -/
theorem claim_C9_counterexample :
    to_res_path ⟨["proj"]⟩
        (resolvePath (joinRel ⟨["proj"]⟩ (pyStrip3 ("\"../a.png\"" : String).data)))
      = none ∧
    normalize_res_like_path "\"../a.png\"" ⟨["proj"]⟩ ⟨["proj"]⟩
      ≠ "\"../a.png\"" := by
  decide

/-- C9 witness: an unquoted escaping reference is preserved verbatim. -/
theorem claim_C9_witness :
    pyStrip3 ("../a.png" : String).data ≠ [] ∧
    normalize_res_like_path "../a.png" ⟨["proj"]⟩ ⟨["proj"]⟩
      = ⟨pyStrip3 ("../a.png" : String).data⟩ :=
  ⟨by decide,
    (claim_C9 "../a.png" ⟨["proj"]⟩ ⟨["proj"]⟩ (by decide) (by decide)
      (by decide) (by decide)).1⟩

/-- C10 (amended): for a well-formed path strictly inside the project root,
to_res_path yields res::/// followed by the slash-joined relative
components (a triple-slash form), and for any input that is stable under
the strip chain and starts with the res prefix, normalize_res_like_path
returns res:/// followed by the tail with leading slashes removed, the
bare root (empty tail) mapping to res://.  The original claim fails only
for raw inputs whose edge whitespace or quote characters are stripped
before the prefix branch runs; see the counterexample. -/
theorem claim_C10 :
    (∀ root p : PPath, okPath p = true →
      p.parts.take root.parts.length = root.parts →
      p.parts ≠ root.parts →
      to_res_path root p
        = some ⟨"res:///".data
            ++ joinSep ['/'] ((p.parts.drop root.parts.length).map String.data)⟩) ∧
    (∀ (raw : String) (b r : PPath),
      pyStrip3 raw.data = raw.data →
      listStartsWith "res://".data raw.data = true →
      normalize_res_like_path raw b r
        = if (raw.data.drop 6).dropWhile (fun c => c == '/') = []
          then "res://"
          else ⟨"res:///".data ++ (raw.data.drop 6).dropWhile (fun c => c == '/')⟩) := by
  constructor
  · intro root p hok htake hne
    unfold to_res_path
    rw [if_pos htake]
    have hrel : p.parts.drop root.parts.length ≠ [] := by
      intro h
      apply hne
      have h2 := List.take_append_drop root.parts.length p.parts
      rw [h, List.append_nil] at h2
      rw [← h2, htake]
    rw [if_neg hrel]
    obtain ⟨x, xs, hx⟩ : ∃ x xs, p.parts.drop root.parts.length = x :: xs := by
      rcases hq : p.parts.drop root.parts.length with _ | ⟨x, xs⟩
      · exact absurd hq hrel
      · exact ⟨x, xs, rfl⟩
    have hxmem : x ∈ p.parts := by
      have : x ∈ p.parts.drop root.parts.length := by
        rw [hx]
        exact List.mem_cons_self x xs
      exact List.drop_subset _ p.parts this
    have hxok := List.all_eq_true.mp hok x hxmem
    have hxne : x.data ≠ [] := by
      intro hq
      unfold okComponent at hxok
      simp only [Bool.and_eq_true, bne_iff_ne, ne_eq] at hxok
      exact hxok.1.1.1 (String.ext hq)
    have hxns : '/' ∉ x.data := not_mem_of_contains_false (by
      unfold okComponent at hxok
      simp only [Bool.and_eq_true, Bool.not_eq_true'] at hxok
      exact hxok.2)
    rw [hx]
    have hcond : ¬ ((joinSep ['/'] ((x :: xs).map String.data)).head?
        = some '/') := by
      intro hq
      rw [List.map_cons, joinSep_head hxne] at hq
      cases hx2 : x.data with
      | nil => exact hxne hx2
      | cons a t =>
        rw [hx2] at hq
        injection hq with ha
        apply hxns
        rw [hx2, ha]
        exact List.mem_cons_self '/' t
    simp only [if_neg hcond, Option.some.injEq]
    apply String.ext
    rfl
  · intro raw b r hstable hpre
    obtain ⟨t0, ht0⟩ := eq_of_startsWith hpre
    have h0 : raw.data ≠ [] := by
      rw [ht0]
      simp
    have h1 : ¬ listStartsWith "uid://".data raw.data = true := by
      rw [ht0]
      rw [show "res://".data ++ t0 = 'r' :: 'e' :: 's' :: ':' :: '/' :: '/' :: t0
        from rfl]
      rw [startsWith_false_of_head _ _ (by decide : ¬ 'u' = 'r')]
      simp
    simp only [normalize_res_like_path]
    rw [hstable, if_neg h0, if_neg h1, if_pos hpre]

/-- C10 counterexample: the raw input res://y followed by a space and a
stray double quote is res-prefixed with a nonempty tail, yet the
normalizer does not return res:/// followed by that tail with leading
slashes removed, because the stray quote is stripped first. -/
theorem claim_C10_counterexample :
    listStartsWith "res://".data ("res://y \"" : String).data = true ∧
    ("res://y \"" : String).data.drop 6 ≠ [] ∧
    normalize_res_like_path "res://y \"" ⟨["proj"]⟩ ⟨["proj"]⟩
      ≠ ⟨"res:///".data
          ++ (("res://y \"" : String).data.drop 6).dropWhile (fun c => c == '/')⟩ := by
  decide

/-- C10 witness: both parts instantiated at concrete inputs. -/
theorem claim_C10_witness :
    to_res_path ⟨["proj"]⟩ ⟨["proj", "sub", "f.gd"]⟩
      = some ⟨"res:///".data
          ++ joinSep ['/'] (((⟨["proj", "sub", "f.gd"]⟩ : PPath).parts.drop
              (⟨["proj"]⟩ : PPath).parts.length).map String.data)⟩ ∧
    normalize_res_like_path "res:////a/b.tscn" ⟨["proj"]⟩ ⟨["proj"]⟩
      = if (("res:////a/b.tscn" : String).data.drop 6).dropWhile
            (fun c => c == '/') = []
        then "res://"
        else ⟨"res:///".data
            ++ (("res:////a/b.tscn" : String).data.drop 6).dropWhile
                (fun c => c == '/')⟩ :=
  ⟨(claim_C10).1 ⟨["proj"]⟩ ⟨["proj", "sub", "f.gd"]⟩ (by decide) (by decide)
      (by decide),
    (claim_C10).2 "res:////a/b.tscn" ⟨["proj"]⟩ ⟨["proj"]⟩ (by decide)
      (by decide)⟩

/-- C1: for the spec's example (roots only the main scene, graph
main_scene to A and A to B, inventory of the four resources, empty
exclusion set) the unused list is exactly the singleton C; in general a
resource is in the unused list exactly when it is in the on-disk inventory,
not in the union of reverse-index keys and root targets, and not in the
exclusion set, and the unused list is sorted by the case-insensitive
casefold key. -/
theorem claim_C1 :
    (compute_unused [("main_scene", ["A"]), ("A", ["B"])] ["main_scene"]
        ["main_scene", "A", "B", "C"] [] = ["C"]) ∧
    (∀ (edges : List (String × List String))
        (roots inventory excl : List String) (rsc : String),
      rsc ∈ compute_unused edges roots inventory excl ↔
        rsc ∈ inventory ∧
        ¬ (isKey (build_reverse_index edges) rsc = true ∨ rsc ∈ roots) ∧
        rsc ∉ excl) ∧
    (∀ (edges : List (String × List String))
        (roots inventory excl : List String),
      (compute_unused edges roots inventory excl).Pairwise
        (fun a b => casefoldLe a b = true)) := by
  refine ⟨by decide, ?_, ?_⟩
  · intro edges roots inventory excl rsc
    unfold compute_unused
    rw [mem_insertionSort, List.mem_filter]
    simp only [Bool.and_eq_true, Bool.not_eq_true', Bool.or_eq_false_iff]
    constructor
    · rintro ⟨hinv, ⟨hkey, hroot⟩, hexcl⟩
      refine ⟨hinv, ?_, ?_⟩
      · rintro (hk | hr)
        · rw [hkey] at hk
          exact Bool.false_ne_true hk
        · rw [List.contains_eq_any_beq] at hroot
          have : roots.any (fun x => rsc == x) = true :=
            List.any_eq_true.mpr ⟨rsc, hr, by simp⟩
          rw [hroot] at this
          exact Bool.false_ne_true this
      · intro hx
        rw [List.contains_eq_any_beq] at hexcl
        have : excl.any (fun x => rsc == x) = true :=
          List.any_eq_true.mpr ⟨rsc, hx, by simp⟩
        rw [hexcl] at this
        exact Bool.false_ne_true this
    · rintro ⟨hinv, hused, hexcl⟩
      refine ⟨hinv, ⟨?_, ?_⟩, ?_⟩
      · rcases hb : isKey (build_reverse_index edges) rsc with _ | _
        · rfl
        · exact absurd (Or.inl hb) hused
      · rcases hb : roots.contains rsc with _ | _
        · rfl
        · exfalso
          apply hused
          right
          rw [List.contains_eq_any_beq, List.any_eq_true] at hb
          obtain ⟨x, hx, hbeq⟩ := hb
          rw [beq_iff_eq] at hbeq
          exact hbeq ▸ hx
      · rcases hb : excl.contains rsc with _ | _
        · rfl
        · exfalso
          apply hexcl
          rw [List.contains_eq_any_beq, List.any_eq_true] at hb
          obtain ⟨x, hx, hbeq⟩ := hb
          rw [beq_iff_eq] at hbeq
          exact hbeq ▸ hx
  · intro edges roots inventory excl
    unfold compute_unused
    exact pairwise_insertionSort casefoldLe_total casefoldLe_trans _

/-- C2: with the dict invariant that source keys are not repeated, the
reverse index built by build_reverse_index is the exact transpose of the
edge dict: s is in UsageIndex[t] exactly when t is in ReferenceGraph[s]
(missing keys denoting the empty set), and t is a key of the reverse index
exactly when some edge set contains t. -/
theorem claim_C2 (edges : List (String × List String))
    (hkeys : (edges.map Prod.fst).Nodup) :
    (∀ t s, s ∈ lookupSet (build_reverse_index edges) t ↔
        t ∈ lookupSet edges s) ∧
    (∀ t, isKey (build_reverse_index edges) t = true ↔
        ∃ p ∈ edges, t ∈ p.2) := by
  constructor
  · intro t s
    rw [mem_lookupSet_build]
    constructor
    · rintro ⟨p, hp, rfl, ht⟩
      rw [lookupSet_eq_of_nodup hkeys hp]
      exact ht
    · intro ht
      rcases hf : edges.find? (fun e => e.1 == s) with _ | e
      · unfold lookupSet at ht
        rw [hf] at ht
        cases ht
      · unfold lookupSet at ht
        rw [hf] at ht
        have he : e ∈ edges := List.mem_of_find?_eq_some hf
        have hes : e.1 = s := by
          have h2 := @List.find?_some _ (fun e => e.1 == s) e edges hf
          simpa [beq_iff_eq] using h2
        exact ⟨e, he, hes, ht⟩
  · intro t
    exact isKey_build

/-- C2 witness: the transpose property instantiated on a concrete
two-source graph. -/
theorem claim_C2_witness :
    ((([("a", ["b", "c"]), ("d", ["b"])] :
        List (String × List String)).map Prod.fst).Nodup) ∧
    ((∀ t s, s ∈ lookupSet
        (build_reverse_index [("a", ["b", "c"]), ("d", ["b"])]) t ↔
        t ∈ lookupSet [("a", ["b", "c"]), ("d", ["b"])] s) ∧
     (∀ t, isKey (build_reverse_index [("a", ["b", "c"]), ("d", ["b"])]) t
        = true ↔ ∃ p ∈ ([("a", ["b", "c"]), ("d", ["b"])] :
          List (String × List String)), t ∈ p.2)) :=
  ⟨by decide, claim_C2 [("a", ["b", "c"]), ("d", ["b"])] (by decide)⟩

/-- C7: the brace-balance scanner ignores braces inside quoted spans: if
the prefix p leaves the scanner outside quotes with no pending escape,
then a quoted span (either quote character) whose body contains neither
that quote nor a backslash contributes nothing to the final delta, however
unbalanced its braces are. -/
theorem claim_C7 (p w r : List Char) (q : Char)
    (hq : q = '"' ∨ q = '\'')
    (hw : ∀ c ∈ w, ¬ c = q ∧ ¬ c = '\\')
    (hclean : (p.foldl braceStep ⟨0, none, false⟩).in_q = none ∧
              (p.foldl braceStep ⟨0, none, false⟩).esc = false) :
    _brace_delta_outside_quotes ⟨p ++ q :: (w ++ q :: r)⟩
      = _brace_delta_outside_quotes ⟨p ++ r⟩ := by
  unfold _brace_delta_outside_quotes
  rw [data_mk, data_mk, List.foldl_append, List.foldl_append]
  have hstform : p.foldl braceStep ⟨0, none, false⟩
      = ⟨(p.foldl braceStep ⟨0, none, false⟩).delta, none, false⟩ := by
    have h1 : p.foldl braceStep ⟨0, none, false⟩
        = ⟨(p.foldl braceStep ⟨0, none, false⟩).delta,
           (p.foldl braceStep ⟨0, none, false⟩).in_q,
           (p.foldl braceStep ⟨0, none, false⟩).esc⟩ := rfl
    rw [hclean.1, hclean.2] at h1
    exact h1
  rw [hstform]
  rw [List.foldl_cons]
  have hopen : braceStep
      ⟨(p.foldl braceStep ⟨0, none, false⟩).delta, none, false⟩ q
      = ⟨(p.foldl braceStep ⟨0, none, false⟩).delta, some q, false⟩ := by
    rcases hq with rfl | rfl <;> rfl
  rw [hopen, List.foldl_append, braceStep_quoted w hw, List.foldl_cons]
  have hclose : braceStep
      ⟨(p.foldl braceStep ⟨0, none, false⟩).delta, some q, false⟩ q
      = ⟨(p.foldl braceStep ⟨0, none, false⟩).delta, none, false⟩ := by
    rcases hq with rfl | rfl <;> rfl
  rw [hclose]

/-- C7 witness: a quoted run of three closing braces inside a value does
not move the balance of the surrounding line. -/
theorem claim_C7_witness :
    (("x = \x7b ".data.foldl braceStep ⟨0, none, false⟩).in_q = none ∧
     ("x = \x7b ".data.foldl braceStep ⟨0, none, false⟩).esc = false) ∧
    _brace_delta_outside_quotes
        ⟨"x = \x7b ".data ++ '"' :: ("\x7d\x7d\x7d".data ++ '"' :: " \x7d".data)⟩
      = _brace_delta_outside_quotes ⟨"x = \x7b ".data ++ " \x7d".data⟩ :=
  ⟨⟨by decide, by decide⟩,
    claim_C7 "x = \x7b ".data "\x7d\x7d\x7d".data " \x7d".data '"'
      (Or.inl rfl) (by decide) ⟨by decide, by decide⟩⟩

/-- C4 (amended): parsing a scene text whose headings are one root node
heading (declaration index 0) with a non-empty name followed by N child
node headings, each with attribute parent="." and pairwise-distinct
names, yields a tree in which the root has exactly N direct children,
listed in ascending declaration-index order (orders 1..N in file order),
for every list of names and hence independently of their lexical
ordering.  The non-empty root name is necessary: an empty root name is
falsy in Python, so the linking loop treats every child as parentless,
attaches none of them and warns instead. -/
theorem claim_C4 (pr bd : PPath) (text R : String) (names : List String)
    (hsplit : pySplitlines text.data
      = mkHeadingLine "node" [("name", R)] :: names.map mkNodeLine)
    (hR : goodAttrValue R = true)
    (hRne : R ≠ "")
    (hnames : ∀ nm ∈ names, goodAttrValue nm = true)
    (hnd : names.Nodup) :
    ∃ kids : List SceneNode,
      (parse_tscn_text pr bd text).root
        = some (SceneNode.mk R "Node" none 0 none none kids) ∧
      kids.length = names.length ∧
      kids.map SceneNode.name = names ∧
      kids.map SceneNode.order = List.range' 1 names.length ∧
      (kids.map SceneNode.order).Pairwise (fun a b => a < b) := by
  refine ⟨(childRecs R names 1).map
    (fun e => SceneNode.mk e.2.name e.2.type_name e.2.parent_full
      e.2.order e.2.script_path e.2.instance_path []), ?_, ?_, ?_, ?_, ?_⟩
  · have hline0 : tscnLine initTokState (mkHeadingLine "node" [("name", R)])
        = (⟨[], [], [], some [("name", R)], some [], 0, []⟩ : TokState) := by
      rw [tscnLine_node initTokState [("name", R)]
        (by
          intro p hp
          simp only [List.mem_cons, List.not_mem_nil, or_false] at hp
          rcases hp with rfl
          exact key_ok _ _ (by decide) (by decide))
        (by
          intro p hp
          simp only [List.mem_cons, List.not_mem_nil, or_false] at hp
          rcases hp with rfl
          exact goodAttrValue_no_quote hR)
        (by
          rw [show ([("name", R)] : List (String × String)).map Prod.fst
            = ["name"] from rfl]
          decide)]
      rfl
    have hst : tscnFlush (tscnLoop (pySplitlines text.data) initTokState)
        = ⟨[], ([("name", R)], [], 0) :: childNodesFrom names 1, [], none,
           none, 0 + names.length + 1, []⟩ := by
      rw [hsplit]
      rw [show tscnLoop
          (mkHeadingLine "node" [("name", R)] :: names.map mkNodeLine)
          initTokState
        = tscnLoop (names.map mkNodeLine)
            (tscnLine initTokState (mkHeadingLine "node" [("name", R)]))
        from rfl]
      rw [hline0]
      exact tscnLoop_nodes names _ [("name", R)] [] hnames rfl rfl
    simp only [parse_tscn_text]
    rw [hst]
    dsimp only
    rw [show dictGetD [("name", R)] "name" "<ROOT>" = R from rfl]
    rw [show dictGetD [("name", R)] "type" "Node" = "Node" from rfl]
    rw [show (List.map (fun e => (e.1, normalize_res_like_path e.2 bd pr))
      ([] : List (String × String))) = [] from rfl]
    have hfold : List.foldl (stage2step R bd pr [])
        [(R, (⟨R, "Node", none, 0, none, none⟩ : NodeRec))]
        (([("name", R)], [], 0) :: childNodesFrom names 1)
        = (R, (⟨R, "Node", none, 0, none, none⟩ : NodeRec))
          :: childRecs R names 1 := by
      rw [List.foldl_cons]
      rw [stage2step_root R bd pr [] _]
      exact stage2_childFold R bd pr [] names 1 _ one_ne_zero hnd
        (fun nm _ => by
          rw [show ([(R, (⟨R, "Node", none, 0, none, none⟩ : NodeRec))].any
            (fun e => e.1 == R ++ "/" ++ nm))
            = ((R == R ++ "/" ++ nm) || false) from rfl]
          rw [root_ne_childKey R nm]
          rfl)
    rw [hfold]
    rw [List.find?_cons_of_pos _ (by simp)]
    dsimp only
    rw [show ((R, (⟨R, "Node", none, 0, none, none⟩ : NodeRec))
        :: childRecs R names 1).length
      = (childRecs R names 1).length + 1 from rfl]
    rw [buildTree_succ]
    have hRb : (R == "") = false := by
      rcases hb : (R == "") with _ | _
      · rfl
      · rw [beq_iff_eq] at hb
        exact absurd hb hRne
    rw [childEntries_run R _ names hRb 1]
    rw [show sortByOrder (childRecs R names 1) = childRecs R names 1 from
      insertionSort_eq_self (childRecs_orderSorted R names 1)]
    rw [childRecs_kidsMap R _ names _ 1 1]
  · rw [List.length_map]
    have hl := congrArg List.length (childRecs_names R names 1)
    rw [List.length_map] at hl
    exact hl
  · rw [List.map_map]
    rw [show (SceneNode.name ∘ fun e : String × NodeRec =>
      SceneNode.mk e.2.name e.2.type_name e.2.parent_full e.2.order
        e.2.script_path e.2.instance_path [])
      = (fun e : String × NodeRec => e.2.name) from rfl]
    exact childRecs_names R names 1
  · rw [List.map_map]
    rw [show (SceneNode.order ∘ fun e : String × NodeRec =>
      SceneNode.mk e.2.name e.2.type_name e.2.parent_full e.2.order
        e.2.script_path e.2.instance_path [])
      = (fun e : String × NodeRec => e.2.order) from rfl]
    exact childRecs_orders R names 1
  · rw [List.map_map]
    rw [show (SceneNode.order ∘ fun e : String × NodeRec =>
      SceneNode.mk e.2.name e.2.type_name e.2.parent_full e.2.order
        e.2.script_path e.2.instance_path [])
      = (fun e : String × NodeRec => e.2.order) from rfl]
    rw [childRecs_orders R names 1]
    exact List.pairwise_lt_range' 1 names.length

/-- Counterexample to C4 as stated for every root: in a scene whose root
heading carries the empty name, the one child heading with parent="."
is not attached -- the parsed root has zero children instead of one, and
the linking loop records a no-parent warning for the child, because the
empty-string parent key is falsy in Python. -/
theorem claim_C4_counterexample :
    (parse_tscn_text ⟨["p"]⟩ ⟨["p"]⟩
        "[node name=\"\"]\n[node name=\"b\" parent=\".\"]").root
      = some (SceneNode.mk "" "Node" none 0 none none []) ∧
    (parse_tscn_text ⟨["p"]⟩ ⟨["p"]⟩
        "[node name=\"\"]\n[node name=\"b\" parent=\".\"]").warnings
      = ["Node has no parent: /b"] :=
  ⟨by set_option maxRecDepth 8192 in rfl,
   by set_option maxRecDepth 8192 in rfl⟩

/-- Witness for C4: a concrete scene text with root "Root" and two
children declared in the non-lexical order b, a; the root gets exactly
these two children with ascending orders 1, 2. -/
theorem claim_C4_witness :
    ∃ kids : List SceneNode,
      (parse_tscn_text ⟨["p"]⟩ ⟨["p"]⟩
        "[node name=\"Root\"]\n[node name=\"b\" parent=\".\"]\n[node name=\"a\" parent=\".\"]").root
        = some (SceneNode.mk "Root" "Node" none 0 none none kids) ∧
      kids.length = (["b", "a"] : List String).length ∧
      kids.map SceneNode.name = ["b", "a"] ∧
      kids.map SceneNode.order
        = List.range' 1 (["b", "a"] : List String).length ∧
      (kids.map SceneNode.order).Pairwise (fun a b => a < b) :=
  claim_C4 ⟨["p"]⟩ ⟨["p"]⟩
    "[node name=\"Root\"]\n[node name=\"b\" parent=\".\"]\n[node name=\"a\" parent=\".\"]"
    "Root" ["b", "a"] (by rfl) (by decide) (by decide) (by decide) (by decide)

/-- C5: a [connection ...] heading lacking the method attribute is warned
about and excluded from the connections list, while every well-formed
connection heading in the same file still produces its SceneConnection
record in file order (part 1, over whole files); and any connection
heading whose signal, from, to or method attribute is missing (its lookup
defaulting to the empty string) appends a warning and leaves the
connections unchanged (part 2, per line, covering all four required
attributes). -/
theorem claim_C5 :
    (∀ (pr bd : PPath) (text : String) (cs : List ConnDesc),
      pySplitlines text.data = cs.map mkConnLine →
      (∀ c ∈ cs, goodConn c = true) →
      (parse_tscn_text pr bd text).connections
        = (cs.filter (fun c => c.method.isSome)).map
            (fun c => (⟨c.sig, c.frm, c.tov, c.method.getD ""⟩
              : SceneConnection)) ∧
      (parse_tscn_text pr bd text).warnings
        = (cs.filter (fun c => c.method.isNone)).map
            (fun c => "Malformed connection heading: "
              ++ (⟨mkConnLine c⟩ : String))
          ++ ["No [node ...] blocks found; file may not be a text .tscn or format is unexpected."]) ∧
    (∀ (st : TokState) (ps : List (String × String)),
      (∀ p ∈ ps, p.1.data ≠ [] ∧ ∀ c ∈ p.1.data, isWordChar c = true) →
      (∀ p ∈ ps, ∀ c ∈ p.2.data, (c == '"') = false) →
      (ps.map Prod.fst).Nodup →
      (dictGetD ps "signal" "" = "" ∨ dictGetD ps "from" "" = ""
        ∨ dictGetD ps "to" "" = "" ∨ dictGetD ps "method" "" = "") →
      (tscnLine st (mkHeadingLine "connection" ps)).conns
        = (tscnFlush st).conns ∧
      (tscnLine st (mkHeadingLine "connection" ps)).warns
        = (tscnFlush st).warns
          ++ ["Malformed connection heading: "
              ++ (⟨mkHeadingLine "connection" ps⟩ : String)]) := by
  constructor
  · intro pr bd text cs hsplit hgood
    have hloop := tscnLoop_conns cs initTokState hgood rfl rfl
    constructor
    · simp only [parse_tscn_text]
      rw [hsplit, hloop]
      dsimp only [tscnFlush, initTokState]
      rw [show ([] : List SceneConnection) ++ cs.filterMap connRecord
        = cs.filterMap connRecord from rfl]
      exact connRecord_as_filter cs
    · simp only [parse_tscn_text]
      rw [hsplit, hloop]
      dsimp only [tscnFlush, initTokState]
      rw [show ([] : List String) ++ cs.filterMap connWarning
        = cs.filterMap connWarning from rfl]
      rw [connWarning_as_filter cs]
  · intro st ps hks hvs hnd hmiss
    rw [tscnLine_conn_missing st ps hks hvs hnd hmiss]
    exact ⟨rfl, rfl⟩

/-- Witness for C5: a file with one well-formed connection and one
lacking method keeps exactly the first and warns about the second; and a
connection heading with signal, from, to but no method attribute warns
and adds no connection. -/
theorem claim_C5_witness :
    ((parse_tscn_text ⟨["p"]⟩ ⟨["p"]⟩
        "[connection signal=\"pressed\" from=\"Btn\" to=\".\" method=\"on_p\"]\n[connection signal=\"toggled\" from=\"Chk\" to=\".\"]").connections
      = (([⟨"pressed", "Btn", ".", some "on_p"⟩, ⟨"toggled", "Chk", ".", none⟩]
          : List ConnDesc).filter (fun c => c.method.isSome)).map
          (fun c => (⟨c.sig, c.frm, c.tov, c.method.getD ""⟩
            : SceneConnection)) ∧
     (parse_tscn_text ⟨["p"]⟩ ⟨["p"]⟩
        "[connection signal=\"pressed\" from=\"Btn\" to=\".\" method=\"on_p\"]\n[connection signal=\"toggled\" from=\"Chk\" to=\".\"]").warnings
      = (([⟨"pressed", "Btn", ".", some "on_p"⟩, ⟨"toggled", "Chk", ".", none⟩]
          : List ConnDesc).filter (fun c => c.method.isNone)).map
          (fun c => "Malformed connection heading: "
            ++ (⟨mkConnLine c⟩ : String))
        ++ ["No [node ...] blocks found; file may not be a text .tscn or format is unexpected."]) ∧
    ((tscnLine initTokState (mkHeadingLine "connection"
        [("signal", "s"), ("from", "f"), ("to", "t")])).conns
      = (tscnFlush initTokState).conns ∧
     (tscnLine initTokState (mkHeadingLine "connection"
        [("signal", "s"), ("from", "f"), ("to", "t")])).warns
      = (tscnFlush initTokState).warns
        ++ ["Malformed connection heading: "
            ++ (⟨mkHeadingLine "connection"
                [("signal", "s"), ("from", "f"), ("to", "t")]⟩ : String)]) :=
  ⟨claim_C5.1 ⟨["p"]⟩ ⟨["p"]⟩
    "[connection signal=\"pressed\" from=\"Btn\" to=\".\" method=\"on_p\"]\n[connection signal=\"toggled\" from=\"Chk\" to=\".\"]"
    [⟨"pressed", "Btn", ".", some "on_p"⟩, ⟨"toggled", "Chk", ".", none⟩]
    (by set_option maxRecDepth 4096 in rfl) (by decide),
   claim_C5.2 initTokState [("signal", "s"), ("from", "f"), ("to", "t")]
    (by decide) (by decide) (by decide) (Or.inr (Or.inr (Or.inr rfl)))⟩

/-- C6: in the exported-variable pass of parse_gd, two decorator-marker
lines (starting with @export, no inline var) immediately followed by one
variable-declaration line produce exactly one export record carrying
exactly those two decorators (part 1); and a run of decorator lines
exceeding the safety bound of eight, followed only by lines that neither
declare a variable nor open an inline export, produces zero export
records (part 2). -/
theorem claim_C6 :
    (∀ (text : String) (d1 d2 v : List Char)
      (g : String × Option String × Option String),
      pySplitlines text.data = [d1, d2, v] →
      isDecoLine d1 = true → isDecoLine d2 = true →
      isPlainVarLine v = true →
      varDeclMatch (pyRStrip v) = some g →
      parse_gd_exports text
        = some [⟨[⟨pyStripWs (pyRStrip d1)⟩, ⟨pyStripWs (pyRStrip d2)⟩],
            g.1, stripGroup g.2.1, stripGroup g.2.2⟩]) ∧
    (∀ (text : String) (decos tails : List (List Char)),
      pySplitlines text.data = decos ++ tails →
      decos.length > 8 →
      (∀ d ∈ decos, isDecoLine d = true) →
      (∀ t ∈ tails, isNeutralLine t = true) →
      parse_gd_exports text = some []) := by
  constructor
  · intro text d1 d2 v g hsplit h1 h2 h3 hm
    unfold parse_gd_exports
    rw [hsplit]
    rw [List.foldlM_cons, gdExportLine_deco [] [] d1 h1,
      Option.bind_eq_bind, Option.some_bind]
    rw [List.foldlM_cons, gdExportLine_deco [] _ d2 h2,
      Option.bind_eq_bind, Option.some_bind]
    rw [List.foldlM_cons, gdExportLine_var [] _ v g h3 hm (by simp),
      Option.bind_eq_bind, Option.some_bind]
    rfl
  · intro text decos tails hsplit _hlen hd ht
    unfold parse_gd_exports
    rw [hsplit]
    rw [foldlM_append_opt gdExportLine decos tails _]
    rw [gd_decoFold decos hd [] []]
    rw [Option.some_bind]
    obtain ⟨p2, hp2⟩ := gd_neutralFold tails ht [] _
    rw [hp2]
    rfl

/-- Witness for C6: a concrete script with decorators @export and
@export_range(0, 100) and fields speed/int/5; and nine decorator lines
followed by a function line, yielding no exports. -/
theorem claim_C6_witness :
    parse_gd_exports "@export\n@export_range(0, 100)\nvar speed: int = 5"
      = some [⟨["@export", "@export_range(0, 100)"], "speed", "int", "5"⟩] ∧
    parse_gd_exports
      "@export\n@export\n@export\n@export\n@export\n@export\n@export\n@export\n@export\nfunc f():"
      = some [] :=
  ⟨claim_C6.1 "@export\n@export_range(0, 100)\nvar speed: int = 5"
    "@export".data "@export_range(0, 100)".data "var speed: int = 5".data
    ("speed", some "int ", some "5")
    (by rfl) (by decide) (by decide) (by decide) (by rfl),
   claim_C6.2
    "@export\n@export\n@export\n@export\n@export\n@export\n@export\n@export\n@export\nfunc f():"
    (List.replicate 9 "@export".data) ["func f():".data]
    (by rfl) (by decide) (by decide) (by decide)⟩

/-- C8 (amended): a file whose bytes fail strict UTF-8 decoding is not
aborted: parse_tscn falls back to the lossy decode (each maximal invalid
subpart replaced by U+FFFD) and parses the replaced text (part 1, every
byte sequence); on the concrete undecodable scene c8Bytes the run
proceeds, the reference set is the non-empty set of the replaced text,
and no warning about the decode failure is recorded (parts 2-4). -/
theorem claim_C8 :
    (∀ (pr bd : PPath) (bs : List Nat),
      utf8DecodeStrict bs = none →
      parse_tscn pr bd bs = parse_tscn_text pr bd ⟨utf8DecodeReplace bs⟩) ∧
    utf8DecodeStrict c8Bytes = none ∧
    (parse_tscn ⟨["p"]⟩ ⟨["p"]⟩ c8Bytes).references = ["res:///a.png"] ∧
    (parse_tscn ⟨["p"]⟩ ⟨["p"]⟩ c8Bytes).warnings = [] := by
  refine ⟨?_, ?_, ?_, ?_⟩
  · intro pr bd bs h
    unfold parse_tscn read_text
    rw [h]
  · rfl
  · set_option maxRecDepth 8192 in rfl
  · set_option maxRecDepth 8192 in rfl

/-- Counterexample to C8 as stated: the undecodable scene c8Bytes is
parsed without any warning (the warning list is empty, so no visible
decode warning exists) and its reference set is non-empty, contradicting
the claimed empty reference set with a visible warning. -/
theorem claim_C8_counterexample :
    utf8DecodeStrict c8Bytes = none ∧
    (parse_tscn ⟨["p"]⟩ ⟨["p"]⟩ c8Bytes).references ≠ [] ∧
    (parse_tscn ⟨["p"]⟩ ⟨["p"]⟩ c8Bytes).warnings = [] := by
  refine ⟨rfl, ?_, by set_option maxRecDepth 8192 in rfl⟩
  rw [show (parse_tscn ⟨["p"]⟩ ⟨["p"]⟩ c8Bytes).references
    = ["res:///a.png"] from by set_option maxRecDepth 8192 in rfl]
  simp

/-- Witness for C8: the fallback equation of part 1 instantiated on the
concrete undecodable bytes. -/
theorem claim_C8_witness :
    utf8DecodeStrict c8Bytes = none ∧
    parse_tscn ⟨["q"]⟩ ⟨["q"]⟩ c8Bytes
      = parse_tscn_text ⟨["q"]⟩ ⟨["q"]⟩ ⟨utf8DecodeReplace c8Bytes⟩ :=
  ⟨rfl, claim_C8.1 ⟨["q"]⟩ ⟨["q"]⟩ c8Bytes rfl⟩

end GodotReport
